import Mathlib

/-!
# A7B voice-time tracker: a shallow embedding of `src/server.js`

The program is a Discord bot plus an Express page.  It keeps two process-wide
maps (`adminTimingData`, `adminMessageIds`), fills them from the messages of a
"database" channel when the bot becomes ready, updates them on every
`voiceStateUpdate` event, and renders them on `GET /`.

Conventions of the embedding:

* JavaScript numbers are double-precision floats.  Every finite number the
  program holds is an integer (clock values, their differences, parsed
  numerals, floors of quotients), so a finite number is an `Int`; `undefined`
  and `NaN` are explicit constructors of `JSNum`.  The steps that round, the
  numeral read by `parseInt` and the three divisions of `formatTime`, are
  modelled with their rounding to 53 significant bits (`roundDouble`,
  `divDouble`).  The subtraction and the addition of the leave branch are taken
  exact, which they are as long as the clock values, durations and totals stay
  below `2^53` in magnitude; statements about totals that start from channel
  messages carry that bound.  The rounding is done without a bound on the
  exponent, and a result of magnitude `2^1024` or more is what JavaScript holds
  as `Infinity` or `-Infinity` (`isInfinity`); `formatTime` reads it so.
* JavaScript strings are `String`; scanning functions work on `List Char`.
* The two global objects are association lists of their own properties in
  the order of their creation; `objectKeys` gives the order of `Object.keys`
  (array indices first, ascending).  A key read from a channel message may be
  `__proto__`, whose assignment creates no property (`seedRecord`).  The keys
  of the event handler are Discord ids, which name no property of
  `Object.prototype`; other keys there are outside the model.
* Every answer of the outside world that a handler awaits (the clock, the
  channel fetch, the identity lookups, the id of a sent message) is a field of
  the event the handler receives, so handlers are pure functions.
-/

namespace A7B

/-! ## JavaScript values used by the program -/

/-- A JavaScript value that is either `undefined`, `NaN` or an integer number. -/
inductive JSNum where
  | undefined : JSNum
  | nan : JSNum
  | num (n : Int) : JSNum
  deriving DecidableEq, Repr

/-- The expression `x || 0` for a numeric slot: `undefined`, `NaN` and `0` are
falsy, so they all give `0`; every other number is returned as is. -/
def JSNum.orZero : JSNum → Int
  | JSNum.undefined => 0
  | JSNum.nan => 0
  | JSNum.num n => n

/-- Truthiness of an optional number, as tested by `if (joinTime)`:
`undefined` and `0` are falsy. -/
def truthyNum : Option Int → Bool
  | none => false
  | some n => n != 0

/-- The expression `a || b` for an optional string `a`: `undefined`, `null` and
the empty string are falsy. -/
def strOr (a : Option String) (b : String) : String :=
  match a with
  | some s => if s = "" then b else s
  | none => b

/-! ## Double-precision arithmetic -/

/-- The number of binary digits of `n`, counted by halving; `fuel` bounds the
number of halvings. -/
def bitLengthAux : Nat → Nat → Nat
  | 0, _ => 0
  | fuel + 1, n => if n = 0 then 0 else bitLengthAux fuel (n / 2) + 1

/-- The number of binary digits of a natural number (`0` for `0`). -/
def bitLength (n : Nat) : Nat := bitLengthAux n n

/-- The integer nearest to `num / den`, a tie going to the even one. -/
def roundHalfEven (num den : Nat) : Nat :=
  let q := num / den
  let r := num % den
  if 2 * r < den then q
  else if 2 * r = den then (if q % 2 = 0 then q else q + 1)
  else q + 1

/-- The double nearest to a natural number (round to nearest, ties to even):
below `2^53` every natural number is a double, above it the number is rounded
to 53 significant bits.  The exponent is not bounded here: a result of `2^1024`
or more is the overflow to `Infinity`. -/
def roundDouble (n : Nat) : Nat :=
  if n < 2 ^ 53 then n
  else roundHalfEven n (2 ^ (bitLength n - 53)) * 2 ^ (bitLength n - 53)

/-- The least `j`, counted up from the given one, with `b ≤ x * 2^j`. -/
def shiftUp : Nat → Nat → Nat → Nat → Nat
  | 0, _, _, j => j
  | fuel + 1, x, b, j => if b ≤ x * 2 ^ j then j else shiftUp fuel x b (j + 1)

/-- The double `x / b` for natural numbers `x` and `b > 0`, as a triple
`(m, up, down)` that stands for `m * 2^up / 2^down`: the quotient is scaled by
a power of two so that it has 53 binary digits before the point, and rounded
there. -/
def divDouble (x b : Nat) : Nat × Nat × Nat :=
  let q0 := x / b
  if 2 ^ 53 ≤ q0 then
    let s := bitLength q0 - 53
    (roundHalfEven x (b * 2 ^ s), s, 0)
  else if 1 ≤ q0 then
    let k := 53 - bitLength q0
    (roundHalfEven (x * 2 ^ k) b, 0, k)
  else if x = 0 then (0, 0, 0)
  else
    let k := 52 + shiftUp (bitLength b) x b 1
    (roundHalfEven (x * 2 ^ k) b, 0, k)

/-- The function `Math.floor` on a value `m * 2^up / 2^down`. -/
def floorDyadic (d : Nat × Nat × Nat) : Nat := d.1 * 2 ^ d.2.1 / 2 ^ d.2.2

/-- The function `Math.ceil` on a value `m * 2^up / 2^down`. -/
def ceilDyadic (d : Nat × Nat × Nat) : Nat :=
  (d.1 * 2 ^ d.2.1 + (2 ^ d.2.2 - 1)) / 2 ^ d.2.2

/-- The expression `Math.floor(x / b)` for an integer `x` and a positive
integer `b`; for a negative `x` the quotient is the negative of the double
`-x / b` and its floor the negative of the ceiling. -/
def floorDiv (x : Int) (b : Nat) : Int :=
  if 0 ≤ x then (floorDyadic (divDouble x.toNat b) : Int)
  else -(ceilDyadic (divDouble (-x).toNat b) : Int)

/-- The shortest decimal of `k` digits that reads back as the double `x`, if
there is one: the two multiples of the unit of the `k`-th digit around `x` are
tried, and the nearer one that rounds to `x` is taken (the even one on a tie).
The result is the digits as a number and the count of digits before the
point. -/
def shortestAt (x k : Nat) : Option (Nat × Nat) :=
  let len := (Nat.toDigits 10 x).length
  if k ≤ len then
    let p := 10 ^ (len - k)
    let sLo := x / p
    let lo := sLo * p
    let hi := lo + p
    let okLo := decide (roundDouble lo = x)
    let okHi := decide (roundDouble hi = x)
    let useHi := okHi && (!okLo || decide (hi - x < x - lo)
      || (decide (hi - x = x - lo) && decide (sLo % 2 = 1)))
    if useHi then
      (if sLo + 1 = 10 ^ k then some (10 ^ (k - 1), len + 1) else some (sLo + 1, len))
    else if okLo then some (sLo, len)
    else none
  else none

/-- The search for the least number of digits, from `k` upwards. -/
def shortestFrom (x : Nat) : Nat → Nat → Option (Nat × Nat)
  | 0, _ => none
  | fuel + 1, k =>
    match shortestAt x k with
    | some r => some r
    | none => shortestFrom x fuel (k + 1)

/-- The conversion of a non-negative integer number to a string
(`Number::toString`): below `2^53` the decimal numeral; above, the shortest
digits that read back as the number, followed by zeros, or in exponent form
from `10^21` on. -/
def natToJSString (x : Nat) : String :=
  if x < 2 ^ 53 then toString x
  else
    match shortestFrom (roundDouble x) 17 1 with
    | none => toString x
    | some (s, n) =>
      let digits := Nat.toDigits 10 s
      let k := digits.length
      if n ≤ 21 then String.mk (digits ++ List.replicate (n - k) '0')
      else
        match digits with
        | [] => toString x
        | [d] => String.mk [d] ++ "e+" ++ toString (n - 1)
        | d :: rest => String.mk (d :: '.' :: rest) ++ "e+" ++ toString (n - 1)

/-- The conversion of an integer number to a string in a template literal. -/
def numberToString (n : Int) : String :=
  if 0 ≤ n then natToJSString n.toNat else "-" ++ natToJSString (-n).toNat

/-! ## `formatTime` (server.js 358-363) -/

/-- The number `2^1024`, written as a product of four factors `2^256`. -/
def overflowThreshold : Nat := 2 ^ 256 * 2 ^ 256 * 2 ^ 256 * 2 ^ 256

/-- Whether an integer of the model stands for `Infinity` or `-Infinity`: its
magnitude is `2^1024` or more, beyond the largest double. -/
def isInfinity (n : Int) : Bool := decide (overflowThreshold ≤ n.natAbs)

/-- The helper `formatTime`: three `Math.floor` of a division of doubles, the
JavaScript remainder `%` (exact, with the sign of the dividend) and the two
conversions to a string of the template literal.  On `Infinity` the quotients
and their floors are `Infinity` and the remainder is `NaN`. -/
def formatTime (milliseconds : Int) : String :=
  if isInfinity milliseconds then
    (if 0 ≤ milliseconds then "Infinityh NaNm" else "-Infinityh NaNm")
  else
    let seconds := floorDiv milliseconds 1000
    let minutes := floorDiv seconds 60
    let hours := floorDiv minutes 60
    numberToString hours ++ "h " ++ numberToString (minutes.tmod 60) ++ "m"

/-! ## Strings: `split` and `parseInt` -/

/-- Whether the characters `sep` stand at the start of `s`. -/
def startsWith : List Char → List Char → Bool
  | [], _ => true
  | _ :: _, [] => false
  | a :: as, b :: bs => a == b && startsWith as bs

/-- The scan behind `String.prototype.split` for a non-empty separator, left to
right.  `skip` counts the characters of a separator just matched that are
still to be passed over; `acc` is the current piece, reversed. -/
def splitGo (sep : List Char) : List Char → Nat → List Char → List (List Char)
  | [], _, acc => [acc.reverse]
  | _ :: cs, skip + 1, acc => splitGo sep cs skip acc
  | c :: cs, 0, acc =>
    if startsWith sep (c :: cs) then acc.reverse :: splitGo sep cs (sep.length - 1) []
    else splitGo sep cs 0 (c :: acc)

/-- The call `s.split(sep)` for a non-empty separator `sep`. -/
def jsSplit (s sep : String) : List String :=
  (splitGo sep.toList s.toList 0 []).map String.mk

/-- The white space that `parseInt` skips (ECMAScript `WhiteSpace` and
`LineTerminator`). -/
def isJSWhiteSpace (c : Char) : Bool :=
  let n := c.toNat
  n == 9 || n == 10 || n == 11 || n == 12 || n == 13 || n == 32 || n == 160 ||
  n == 0x1680 || (0x2000 ≤ n && n ≤ 0x200A) || n == 0x2028 || n == 0x2029 ||
  n == 0x202F || n == 0x205F || n == 0x3000 || n == 0xFEFF

/-- The value of a character as a digit of the given radix, if it is one. -/
def digitValue (radix : Nat) (c : Char) : Option Nat :=
  let n := c.toNat
  let v :=
    if 48 ≤ n && n ≤ 57 then some (n - 48)
    else if 97 ≤ n && n ≤ 122 then some (n - 97 + 10)
    else if 65 ≤ n && n ≤ 90 then some (n - 65 + 10)
    else none
  match v with
  | some d => if d < radix then some d else none
  | none => none

/-- Reads the longest run of radix digits at the start of the text; `acc` is
the value read so far, `none` until a first digit has been seen. -/
def readDigits (radix : Nat) : List Char → Option Nat → Option Nat
  | [], acc => acc
  | c :: cs, acc =>
    match digitValue radix c with
    | some d => readDigits radix cs (some (acc.getD 0 * radix + d))
    | none => acc

/-- The sign step of `parseInt`: a leading `-` or `+` is removed. -/
def readSign : List Char → Int × List Char
  | '-' :: cs => (-1, cs)
  | '+' :: cs => (1, cs)
  | cs => (1, cs)

/-- The radix step of `parseInt` called without a radix: `0x` or `0X` selects
base 16, anything else base 10. -/
def readRadix : List Char → Nat × List Char
  | '0' :: 'x' :: cs => (16, cs)
  | '0' :: 'X' :: cs => (16, cs)
  | cs => (10, cs)

/-- The global `parseInt(x)` with one argument.  `undefined` is first turned
into the text `undefined`, which has no digit, so the result is `NaN`.  The
value of the digits is rounded to the nearest double (`Infinity` from `2^1024`
on, see `isInfinity`). -/
def parseInt : Option String → JSNum
  | none => JSNum.nan
  | some s =>
    let trimmed := s.toList.dropWhile isJSWhiteSpace
    let (sign, rest) := readSign trimmed
    let (radix, digits) := readRadix rest
    match readDigits radix digits none with
    | some n => JSNum.num (sign * (roundDouble n : Int))
    | none => JSNum.nan

/-- The property key a value becomes in `obj[x]`: `undefined` is the key
`undefined`. -/
def keyOf : Option String → String
  | some s => s
  | none => "undefined"

/-! ## The two global maps -/

/-- Reading `obj[k]` in an object kept as a list of its own properties. -/
def lookup {β : Type} (k : String) : List (String × β) → Option β
  | [] => none
  | (k', v) :: rest => if k' = k then some v else lookup k rest

/-- Writing `obj[k] = v`: an existing property keeps its place, a new one goes
last. -/
def assign {β : Type} (k : String) (v : β) : List (String × β) → List (String × β)
  | [] => [(k, v)]
  | (k', v') :: rest => if k' = k then (k, v) :: rest else (k', v') :: assign k v rest

/-- One closed session, as pushed by the leave branch. -/
structure Session where
  timestamp : Int
  timeSpent : Int
  deriving DecidableEq, Repr

/-- One value of `adminTimingData`.  `totalTime` is absent (`undefined`) on a
record made by the join branch; `joinTime` is absent unless a join is open. -/
structure AdminRecord where
  totalTime : JSNum
  sessions : List Session
  joinTime : Option Int
  deriving DecidableEq, Repr

/-- The process-wide state: `adminTimingData` and `adminMessageIds`. -/
structure Tracker where
  adminTimingData : List (String × AdminRecord)
  adminMessageIds : List (String × String)
  deriving DecidableEq, Repr

/-- The state at process start: both maps are `{}`. -/
def Tracker.empty : Tracker := ⟨[], []⟩

/-! ## The `ready` handler (server.js 29-45) -/

/-- A message of the database channel. -/
structure Message where
  id : String
  content : String
  deriving DecidableEq, Repr

/-- Lines 38-40 of the `forEach` callback: the key and the total read from a
message.  `none` is the `TypeError` of `content[1].split` when the content has
no second line. -/
def parseMessage (message : Message) : Option (String × JSNum) :=
  let content := jsSplit message.content "\n"
  let userId := (jsSplit (content.headD "") ": ")[1]?
  match content[1]? with
  | none => none
  | some line =>
    let totalTime := parseInt ((jsSplit line ": ")[1]?)
    some (keyOf userId, totalTime)

/-- Lines 42-43 of the `forEach` callback.  For the key `__proto__` the two
assignments go to the setter of `Object.prototype`: the first replaces the
prototype of `adminTimingData`, the second is ignored, and neither object
gains a property. -/
def seedRecord (s : Tracker) (userId : String) (totalTime : JSNum) (messageId : String) : Tracker :=
  if userId = "__proto__" then s
  else
    { adminTimingData := assign userId ⟨totalTime, [], none⟩ s.adminTimingData,
      adminMessageIds := assign userId messageId s.adminMessageIds }

/-- What the `ready` handler leaves behind: the state, and whether the handler
ran to its end (`false` when an exception ended it). -/
structure ReadyResult where
  state : Tracker
  completed : Bool
  deriving DecidableEq, Repr

/-- The loop `messages.forEach(...)`: an exception thrown by the callback ends
the loop, and what earlier iterations wrote stays written. -/
def forEachMessage : List Message → Tracker → ReadyResult
  | [], s => ⟨s, true⟩
  | message :: rest, s =>
    match parseMessage message with
    | none => ⟨s, false⟩
    | some (userId, totalTime) => forEachMessage rest (seedRecord s userId totalTime message.id)

/-- The `ready` handler.  `messages` is `none` when the database channel is not
found, in which case the handler returns at once. -/
def ready (messages : Option (List Message)) (s : Tracker) : ReadyResult :=
  match messages with
  | none => ⟨s, true⟩
  | some ms => forEachMessage ms s

/-- The tracker state after startup reconciliation over the given channel
messages, from the empty maps. -/
def startup (messages : List Message) : Tracker :=
  (ready (some messages) Tracker.empty).state

/-! ## The `voiceStateUpdate` handler (server.js 47-94) -/

/-- A guild member as the handler sees it: its id and the ids of its roles. -/
structure Member where
  id : String
  roles : List String
  deriving DecidableEq, Repr

/-- A voice state: its member (`null` when not cached) and its channel
(`null` when the member is in no voice channel). -/
structure VoiceState where
  member : Option Member
  channel : Option String
  deriving DecidableEq, Repr

/-- A `voiceStateUpdate` event together with everything the handler obtains
from outside while it runs. -/
structure VoiceEvent where
  oldState : VoiceState
  newState : VoiceState
  /-- The value of `Date.now()`. -/
  now : Int
  /-- Whether `bot.channels.fetch(DATABASE_CHANNEL_ID)` gives a channel. -/
  channelFound : Bool
  /-- The `username` of `bot.users.fetch(adminId)`; `none` when it rejects. -/
  username : Option String
  /-- The value of `member?.nickname` after the member fetch. -/
  nickname : Option String
  /-- The id of the message made by `databaseChannel.send`. -/
  sentId : String
  deriving DecidableEq, Repr

/-- A write to the database channel. -/
inductive Write where
  | edit (messageId : String) (content : String) : Write
  | send (content : String) : Write
  deriving DecidableEq, Repr

/-- The expression `oldState.member || newState.member`. -/
def VoiceEvent.member (ev : VoiceEvent) : Option Member :=
  match ev.oldState.member with
  | some m => some m
  | none => ev.newState.member

/-- The template literal of lines 77-81, with its line breaks and indentation. -/
def messageContent (adminId : String) (totalTime : Int) (nickname : String) : String :=
  "\n        **User ID:** " ++ adminId ++
  "\n        **Total Time:** " ++ formatTime totalTime ++
  "\n        **Name:** " ++ nickname ++
  "\n      "

/-- Lines 69-91: the upsert of the external record, run after the record of
`adminId` has been updated to the total `totalTime`. -/
def upsert (ev : VoiceEvent) (adminId : String) (totalTime : Int) (s : Tracker) :
    Tracker × List Write :=
  if !ev.channelFound then (s, [])
  else
    match ev.username with
    | none => (s, [])
    | some username =>
      let content := messageContent adminId totalTime (strOr ev.nickname username)
      match lookup adminId s.adminMessageIds with
      | some messageId =>
        if messageId = "" then
          ({ s with adminMessageIds := assign adminId ev.sentId s.adminMessageIds },
            [Write.send content])
        else (s, [Write.edit messageId content])
      | none =>
        ({ s with adminMessageIds := assign adminId ev.sentId s.adminMessageIds },
          [Write.send content])

/-- The `voiceStateUpdate` handler: the new state and the writes it made to the
database channel.  An exception (no member on either voice state, a rejected
user fetch) ends the handler with the state as it is at that point. -/
def voiceStateUpdate (ADMIN_ROLE_ID : String) (ev : VoiceEvent) (s : Tracker) :
    Tracker × List Write :=
  match ev.member with
  | none => (s, [])
  | some member =>
    if !(member.roles.contains ADMIN_ROLE_ID) then (s, [])
    else
      let adminId := member.id
      let now := ev.now
      if ev.newState.channel.isSome && ev.oldState.channel.isNone then
        let record := (lookup adminId s.adminTimingData).getD ⟨JSNum.undefined, [], none⟩
        ({ s with adminTimingData :=
            assign adminId { record with joinTime := some now } s.adminTimingData }, [])
      else if ev.newState.channel.isNone && ev.oldState.channel.isSome then
        match lookup adminId s.adminTimingData with
        | none => (s, [])
        | some record =>
          match record.joinTime with
          | none => (s, [])
          | some joinTime =>
            if truthyNum (some joinTime) then
              let timeSpent := now - joinTime
              let totalTime := record.totalTime.orZero + timeSpent
              let record1 : AdminRecord :=
                { totalTime := JSNum.num totalTime,
                  sessions := record.sessions ++ [⟨now, timeSpent⟩],
                  joinTime := none }
              upsert ev adminId totalTime
                { s with adminTimingData := assign adminId record1 s.adminTimingData }
            else (s, [])
      else (s, [])

/-- The tracker after a sequence of events, handled one after the other. -/
def runEvents (ADMIN_ROLE_ID : String) : List VoiceEvent → Tracker → Tracker
  | [], s => s
  | ev :: rest, s => runEvents ADMIN_ROLE_ID rest (voiceStateUpdate ADMIN_ROLE_ID ev s).1

/-- Whether the event is a join (none to channel) of the role-holding member
`adminId`. -/
def VoiceEvent.joins (ev : VoiceEvent) (ADMIN_ROLE_ID adminId : String) : Bool :=
  match ev.member with
  | none => false
  | some m =>
    m.id == adminId && m.roles.contains ADMIN_ROLE_ID &&
      ev.newState.channel.isSome && ev.oldState.channel.isNone

/-- Whether the event is a leave (channel to none) of the role-holding member
`adminId`. -/
def VoiceEvent.leaves (ev : VoiceEvent) (ADMIN_ROLE_ID adminId : String) : Bool :=
  match ev.member with
  | none => false
  | some m =>
    m.id == adminId && m.roles.contains ADMIN_ROLE_ID &&
      ev.newState.channel.isNone && ev.oldState.channel.isSome

/-- The sum `sessions.reduce((sum, session) => sum + session.timeSpent, 0)`. -/
def sumTimeSpent (sessions : List Session) : Int :=
  sessions.foldl (fun sum session => sum + session.timeSpent) 0

/-! ## The page `GET /` (server.js 100-355) -/

/-- A property value of an object of the page data. -/
inductive JSVal where
  | str (s : String) : JSVal
  | num (n : Int) : JSVal
  | sessions (l : List Session) : JSVal
  deriving DecidableEq, Repr

/-- What the renderer obtains from outside for one admin. -/
structure Lookup where
  /-- The `username` and `displayAvatarURL()` of the fetched user; `none` when
  the fetch fails. -/
  user : Option (String × String)
  /-- The value of `member?.nickname`. -/
  nickname : Option String
  /-- The value of `Date.now()`. -/
  now : Int
  /-- The value of `new Date().setHours(0, 0, 0, 0)`. -/
  todayStart : Int
  deriving DecidableEq, Repr

/-- The windowed sum of lines 112-122: `filter` on the lower bound, then
`reduce`. -/
def windowSum (sessions : List Session) (lowerBound : Int) : Int :=
  sumTimeSpent (sessions.filter (fun session => decide (session.timestamp ≥ lowerBound)))

/-- The callback of lines 102-134 for one key of `adminTimingData`: the object
literal it returns, as its properties in order, or `none` for `null`. -/
def renderAdmin (adminId : String) (record : AdminRecord) (env : Lookup) :
    Option (List (String × JSVal)) :=
  match env.user with
  | none => none
  | some (username, avatar) =>
    let now := env.now
    let todayStart := env.todayStart
    let oneWeekAgo := now - 7 * 24 * 60 * 60 * 1000
    let oneMonthAgo := now - 30 * 24 * 60 * 60 * 1000
    let todayTime := windowSum record.sessions todayStart
    let weeklyTime := windowSum record.sessions oneWeekAgo
    let monthlyTime := windowSum record.sessions oneMonthAgo
    some
      [ ("adminId", JSVal.str adminId),
        ("username", JSVal.str username),
        ("nickname", JSVal.str (strOr env.nickname username)),
        ("avatar", JSVal.str avatar),
        ("totalTime", JSVal.num record.totalTime.orZero),
        ("todayTime", JSVal.num todayTime),
        ("weeklyTime", JSVal.num weeklyTime),
        ("monthlyTime", JSVal.num monthlyTime) ]

/-- The number that a property key is as an array index, if it is one: the key
is the decimal numeral of a number below `2^32 - 1`. -/
def arrayIndex (key : String) : Option Nat :=
  match readDigits 10 key.toList none with
  | some n => if toString n = key ∧ n < 2 ^ 32 - 1 then some n else none
  | none => none

/-- Insertion of an array index into an ascending list of array indices. -/
def insertIndex (n : Nat) : List Nat → List Nat
  | [] => [n]
  | m :: rest => if n ≤ m then n :: m :: rest else m :: insertIndex n rest

/-- The call `Object.keys(obj)`: the array indices in ascending order, then the
other keys in the order of their creation. -/
def objectKeys {β : Type} (obj : List (String × β)) : List String :=
  ((obj.filterMap (fun entry => arrayIndex entry.1)).foldr insertIndex []).map toString
    ++ (obj.filter (fun entry => (arrayIndex entry.1).isNone)).map Prod.fst

/-- The list `admins` of the page: one object per key of `adminTimingData`,
the `null` ones filtered out. -/
def renderSnapshot (s : Tracker) (env : String → Lookup) : List (List (String × JSVal)) :=
  (objectKeys s.adminTimingData).filterMap (fun adminId =>
    match lookup adminId s.adminTimingData with
    | some record => renderAdmin adminId record (env adminId)
    | none => none)

/-- The client function `showDetails(adminId)`: `admins.find(a => a.adminId === adminId)`. -/
def showDetails (admins : List (List (String × JSVal))) (adminId : String) :
    Option (List (String × JSVal)) :=
  admins.find? (fun a => decide (lookup "adminId" a = some (JSVal.str adminId)))

/-- The client function `showToday()`, reduced to the time it computes from
`selectedAdmin.sessions`; `none` is the `TypeError` of calling `.filter` on a
value that is not an array. -/
def showToday (selectedAdmin : List (String × JSVal)) (todayStart : Int) : Option Int :=
  match lookup "sessions" selectedAdmin with
  | some (JSVal.sessions l) => some (windowSum l todayStart)
  | _ => none

/-! ## Event sequences used in the statements -/

/-- The events of a sequence of join/leave cycles, each cycle given as its join
event and its leave event. -/
def cycleEvents : List (VoiceEvent × VoiceEvent) → List VoiceEvent
  | [] => []
  | (join, leave) :: rest => join :: leave :: cycleEvents rest

/-- The sessions that a sequence of cycles is expected to leave: for each
cycle, in order, the leave time and the leave time minus the join time. -/
def cycleSessions (cycles : List (VoiceEvent × VoiceEvent)) : List Session :=
  cycles.map (fun c => ⟨c.2.now, c.2.now - c.1.now⟩)

/-- The id of the admin of the examples. -/
def exampleAdmin : String := "123456789012345678"

/-- The id of a second admin of the examples. -/
def exampleOther : String := "223456789012345678"

/-- The id of a member without the admin role. -/
def exampleGuest : String := "323456789012345678"

/-- The value of `ADMIN_ROLE_ID` in the examples. -/
def exampleRole : String := "800000000000000001"

/-- A channel message in the wire format of the specification, for
`exampleAdmin` with a total of two hours. -/
def exampleMessage : Message :=
  ⟨"m1", "User ID: 123456789012345678\nTotal Time: 7200000\nName: bob"⟩

/-- A channel message with a negative total for `exampleAdmin`. -/
def exampleNegativeMessage : Message :=
  ⟨"m1", "User ID: 123456789012345678\nTotal Time: -5000\nName: bob"⟩

/-- A channel message in the wire format of the specification, for
`exampleOther` with a total of one minute. -/
def exampleMessage3 : Message :=
  ⟨"m3", "User ID: 223456789012345678\nTotal Time: 60000\nName: al"⟩

/-- An example event: the member `exampleAdmin`, who holds the role
`exampleRole`, joins the voice channel `lobby` at time `t`. -/
def exampleJoin (t : Int) : VoiceEvent :=
  { oldState := ⟨some ⟨exampleAdmin, [exampleRole]⟩, none⟩,
    newState := ⟨some ⟨exampleAdmin, [exampleRole]⟩, some "lobby"⟩,
    now := t, channelFound := true, username := some "bob", nickname := none,
    sentId := "m1" }

/-- An example event: the member `exampleAdmin`, who holds the role
`exampleRole`, leaves the voice channel `lobby` at time `t`. -/
def exampleLeave (t : Int) : VoiceEvent :=
  { oldState := ⟨some ⟨exampleAdmin, [exampleRole]⟩, some "lobby"⟩,
    newState := ⟨some ⟨exampleAdmin, [exampleRole]⟩, none⟩,
    now := t, channelFound := true, username := some "bob", nickname := none,
    sentId := "m1" }

/-- An example event: the member `exampleGuest`, who holds no role, joins the voice
channel `lobby` at time `t`. -/
def exampleGuestJoin (t : Int) : VoiceEvent :=
  { oldState := ⟨some ⟨exampleGuest, []⟩, none⟩,
    newState := ⟨some ⟨exampleGuest, []⟩, some "lobby"⟩,
    now := t, channelFound := true, username := some "eve", nickname := none,
    sentId := "m2" }

/-- The total that startup reconciliation left for `adminId`, read as the page
reads it (`totalTime || 0`); `0` when reconciliation left no record. -/
def seededTotal (s0 : Tracker) (adminId : String) : Int :=
  match lookup adminId s0.adminTimingData with
  | some r => r.totalTime.orZero
  | none => 0

/-- Whether an integer is a safe integer: below `2^53` in magnitude, where every
integer is a double and sums and differences of doubles are exact. -/
def safeInt (n : Int) : Bool := decide (n.natAbs < 2 ^ 53)

/-- Whether the total of a record (read with `|| 0`) and the durations of its
sessions are safe integers. -/
def recordSafe (r : AdminRecord) : Bool :=
  safeInt r.totalTime.orZero && r.sessions.all (fun session => safeInt session.timeSpent)

/-- Whether every record of the tracker is safe. -/
def trackerSafe (s : Tracker) : Bool :=
  s.adminTimingData.all (fun entry => recordSafe entry.2)

/-- Whether a sequence of events stays within the safe integers: the tracker is
safe before every event and at the end, and every clock value is safe. -/
def runSafe (ADMIN_ROLE_ID : String) : List VoiceEvent → Tracker → Bool
  | [], s => trackerSafe s
  | ev :: rest, s =>
    trackerSafe s && safeInt ev.now
      && runSafe ADMIN_ROLE_ID rest (voiceStateUpdate ADMIN_ROLE_ID ev s).1

/-- Whether the content of a message has at least two lines. -/
def hasTwoLines (message : Message) : Bool :=
  decide (2 ≤ (jsSplit message.content "\n").length)

/-- What one iteration of the `forEach` callback does to the state when it
does not throw. -/
def seedFrom (s : Tracker) (message : Message) : Tracker :=
  match parseMessage message with
  | some (userId, totalTime) => seedRecord s userId totalTime message.id
  | none => s

/-- The ten decimal digits. -/
def decimalDigits : List Char := ['0', '1', '2', '3', '4', '5', '6', '7', '8', '9']

/-- The external record wire format of the specification (section 6): three
lines, `User ID: <adminId>`, `Total Time: <integer milliseconds>` and
`Name: <display name>`.  Used only to state what the parser does on it. -/
def recordText (adminId : String) (totalTime : Nat) (name : String) : String :=
  "User ID: " ++ adminId ++ "\nTotal Time: " ++ toString totalTime ++ "\nName: " ++ name

/-! ## Theorems -/

theorem orZero_num (n : Int) : (JSNum.num n).orZero = n := rfl

theorem toString_natCast (n : Nat) : toString ((n : Nat) : Int) = toString n := rfl

/-! ### Double-precision division below `2^53` -/

theorem bitLengthAux_spec (fuel : Nat) :
    ∀ n, n ≤ fuel → n < 2 ^ bitLengthAux fuel n ∧ (n ≠ 0 → 2 ^ bitLengthAux fuel n ≤ 2 * n) := by
  induction fuel with
  | zero =>
    intro n hn
    have : n = 0 := by omega
    subst this
    simp [bitLengthAux]
  | succ fuel ih =>
    intro n hn
    by_cases h0 : n = 0
    · subst h0
      simp [bitLengthAux]
    · have hhalf : n / 2 ≤ fuel := by omega
      obtain ⟨h1, h2⟩ := ih (n / 2) hhalf
      simp only [bitLengthAux, h0, if_false, pow_succ]
      refine ⟨by omega, fun _ => ?_⟩
      by_cases hz : n / 2 = 0
      · have hb : bitLengthAux fuel (n / 2) = 0 := by
          rw [hz]
          cases fuel <;> simp [bitLengthAux]
        rw [hb]
        omega
      · have := h2 hz
        omega

theorem bitLength_spec (n : Nat) :
    n < 2 ^ bitLength n ∧ (n ≠ 0 → 2 ^ bitLength n ≤ 2 * n) :=
  bitLengthAux_spec n n (le_refl n)

theorem roundHalfEven_cases (num den : Nat) :
    roundHalfEven num den = num / den
      ∨ (roundHalfEven num den = num / den + 1 ∧ den ≤ 2 * (num % den)) := by
  unfold roundHalfEven
  simp only []
  split
  · left; rfl
  · split
    · split
      · left; rfl
      · right; exact ⟨rfl, by omega⟩
    · right; exact ⟨rfl, by omega⟩

theorem shiftUp_ge (fuel x b : Nat) : ∀ j, j ≤ shiftUp fuel x b j := by
  induction fuel with
  | zero => intro j; simp [shiftUp]
  | succ fuel ih =>
    intro j
    simp only [shiftUp]
    split
    · exact le_refl j
    · exact le_trans (Nat.le_succ j) (ih (j + 1))

/-- Rounding up to the next multiple of `2^k` does not happen when `b < 2 * 2^k`. -/
theorem scaled_round_floor (x b P : Nat) (hb : 0 < b) (hP : 0 < P) (hbP : b < 2 * P) :
    roundHalfEven (x * P) b / P = x / b := by
  have hq : x * P / b / P = x / b := by
    rw [Nat.div_div_eq_div_mul, Nat.mul_div_mul_right _ _ hP]
  rcases roundHalfEven_cases (x * P) b with h | ⟨h, hr⟩
  · rw [h, hq]
  · rw [h]
    -- q + 1 stays below the next multiple of P
    have hmod : (x * P / b) % P ≠ P - 1 := by
      intro hm
      have h1 := Nat.div_add_mod (x * P / b) P
      rw [hq, hm] at h1
      have h2 := Nat.div_add_mod (x * P) b
      have h3 := Nat.div_add_mod x b
      have hrlt := Nat.mod_lt (x * P) hb
      have hxlt := Nat.mod_lt x hb
      -- x * P = b * (P * (x / b) + (P - 1)) + r
      set t := x / b
      set r := x * P % b
      set ρ := x % b
      have e1 : x * P = b * (P * t + (P - 1)) + r := by rw [h1]; exact h2.symm
      have e2 : x = b * t + ρ := h3.symm
      have e3 : (b * t + ρ) * P = b * (P * t + (P - 1)) + r := by rw [← e2]; exact e1
      have e4 : (b * t + ρ) * P = b * (P * t) + ρ * P := by ring
      have e5 : b * (P * t + (P - 1)) = b * (P * t) + b * (P - 1) := by ring
      have e6 : ρ * P = b * (P - 1) + r := by omega
      have e7 : b * (P - 1) + b = b * P := by
        have : P - 1 + 1 = P := by omega
        calc b * (P - 1) + b = b * (P - 1 + 1) := by ring
          _ = b * P := by rw [this]
      -- (b - ρ) * P = b - r
      have e8 : ρ * P + (b - r) = b * P := by omega
      have e9 : (b - ρ) * P = b - r := by
        have : (b - ρ) * P + ρ * P = b * P := by
          rw [← Nat.add_mul]
          congr 1
          omega
        omega
      have hpos : 1 ≤ b - ρ := by omega
      have : P ≤ (b - ρ) * P := Nat.le_mul_of_pos_left P hpos
      omega
    have hlt := Nat.mod_lt (x * P / b) hP
    have hd := Nat.div_add_mod (x * P / b) P
    rw [hq] at hd
    have : x * P / b + 1 = P * (x / b) + ((x * P / b) % P + 1) := by omega
    rw [this, Nat.mul_add_div hP]
    have : ((x * P / b) % P + 1) / P = 0 := Nat.div_eq_of_lt (by omega)
    omega

theorem floorDyadic_divDouble (x b : Nat) (hx : x < 2 ^ 53) (hb : 0 < b) (hb2 : b ≤ 2 ^ 52) :
    floorDyadic (divDouble x b) = x / b := by
  have hq0 : x / b < 2 ^ 53 := lt_of_le_of_lt (Nat.div_le_self x b) hx
  unfold divDouble
  simp only [not_le.mpr hq0, if_false]
  by_cases h1 : 1 ≤ x / b
  · simp only [h1, if_true, floorDyadic, pow_zero, mul_one]
    obtain ⟨hlt, hle⟩ := bitLength_spec (x / b)
    have hle := hle (by omega)
    set L := bitLength (x / b)
    have hL : L ≤ 53 := by
      by_contra hcon
      have : 2 ^ 54 ≤ 2 ^ L := Nat.pow_le_pow_right (by norm_num) (by omega)
      omega
    have hpow : 2 ^ L * 2 ^ (53 - L) = 2 ^ 53 := by
      rw [← pow_add]
      congr 1
      omega
    have hPpos : 0 < 2 ^ (53 - L) := pow_pos (by norm_num) _
    have hbq : b * (x / b) ≤ x := Nat.mul_div_le x b
    have hbP : b < 2 * 2 ^ (53 - L) := by
      by_contra hcon
      have hcon : 2 * 2 ^ (53 - L) ≤ b := by omega
      have h2 : 2 ^ L * (2 * 2 ^ (53 - L)) ≤ (2 * (x / b)) * b :=
        Nat.mul_le_mul hle hcon
      have h3 : 2 ^ L * (2 * 2 ^ (53 - L)) = 2 * 2 ^ 53 := by
        rw [← hpow]; ring
      have h4 : (2 * (x / b)) * b = 2 * (b * (x / b)) := by ring
      omega
    exact scaled_round_floor x b _ hb hPpos hbP
  · simp only [h1, if_false]
    have hxb : x / b = 0 := Nat.lt_one_iff.mp (not_le.mp h1)
    by_cases hx0 : x = 0
    · subst hx0
      simp [floorDyadic]
    · simp only [hx0, if_false, floorDyadic, pow_zero, mul_one]
      rw [hxb]
      apply Nat.div_eq_of_lt
      have hj := shiftUp_ge (bitLength b) x b 1
      set k := 52 + shiftUp (bitLength b) x b 1
      have hk : 53 ≤ k := by omega
      have hP : 2 ^ 53 ≤ 2 ^ k := Nat.pow_le_pow_right (by norm_num) hk
      have hxlt : x < b := (Nat.div_eq_zero_iff hb).mp hxb
      have hmul : x * 2 ^ k + 2 * b ≤ b * 2 ^ k := by
        have h1 : (x + 1) * 2 ^ k ≤ b * 2 ^ k := Nat.mul_le_mul_right _ (by omega)
        have h2 : 2 * b ≤ 2 ^ k := by omega
        have h3 : (x + 1) * 2 ^ k = x * 2 ^ k + 2 ^ k := by ring
        omega
      have hdiv : x * 2 ^ k / b + 2 ≤ 2 ^ k := by
        have : x * 2 ^ k / b ≤ 2 ^ k - 2 := by
          apply Nat.div_le_of_le_mul
          have : b * (2 ^ k - 2) = b * 2 ^ k - 2 * b := by
            rw [Nat.mul_sub]; ring_nf
          omega
        omega
      rcases roundHalfEven_cases (x * 2 ^ k) b with h | ⟨h, _⟩ <;> omega

theorem floorDiv_natCast (x b : Nat) (hx : x < 2 ^ 53) (hb : 0 < b) (hb2 : b ≤ 2 ^ 52) :
    floorDiv (x : Int) b = ((x / b : Nat) : Int) := by
  unfold floorDiv
  simp only [Int.natCast_nonneg, if_true, Int.toNat_ofNat]
  rw [floorDyadic_divDouble x b hx hb hb2]

theorem numberToString_natCast (n : Nat) (hn : n < 2 ^ 53) :
    numberToString (n : Int) = toString n := by
  unfold numberToString natToJSString
  simp only [Int.natCast_nonneg, if_true, Int.toNat_ofNat, hn]

/-- Below `2^53` the three rounded divisions of `formatTime` are the integer
divisions, and the two numbers are printed as their decimal numerals. -/
theorem formatTime_natCast (d : Nat) (hd : d < 2 ^ 53) :
    formatTime (d : Int) = toString (d / 3600000) ++ "h " ++ toString (d / 60000 % 60) ++ "m" := by
  have hs : d / 1000 < 2 ^ 53 := lt_of_le_of_lt (Nat.div_le_self _ _) hd
  have hm : d / 1000 / 60 < 2 ^ 53 := lt_of_le_of_lt (Nat.div_le_self _ _) hs
  have hh : d / 1000 / 60 / 60 < 2 ^ 53 := lt_of_le_of_lt (Nat.div_le_self _ _) hm
  have h1 := floorDiv_natCast d 1000 hd (by norm_num) (by norm_num)
  have h2 := floorDiv_natCast (d / 1000) 60 hs (by norm_num) (by norm_num)
  have h3 := floorDiv_natCast (d / 1000 / 60) 60 hm (by norm_num) (by norm_num)
  have h4 : (((d / 1000 / 60 : Nat) : Int)).tmod 60 = ((d / 1000 / 60 % 60 : Nat) : Int) := by
    rw [Int.tmod_eq_emod (by positivity) (by norm_num)]; norm_cast
  have h5 : d / 1000 / 60 % 60 < 2 ^ 53 := lt_of_le_of_lt (Nat.mod_le _ _) hm
  have e1 : d / 1000 / 60 = d / 60000 := by rw [Nat.div_div_eq_div_mul]
  have e2 : d / 60000 / 60 = d / 3600000 := by rw [Nat.div_div_eq_div_mul]
  have hfin : isInfinity (d : Int) = false := by
    have hpow : (2 : Nat) ^ 53 ≤ overflowThreshold := by decide
    have hlt : ¬ (overflowThreshold ≤ d) := not_le.mpr (lt_of_lt_of_le hd hpow)
    unfold isInfinity
    rw [Int.natAbs_ofNat]
    exact decide_eq_false hlt
  simp only [formatTime, hfin, Bool.false_eq_true, if_false, h1, h2, h3, h4,
    numberToString_natCast _ hh, numberToString_natCast _ h5]
  rw [e1, e2]

/-- C1 counterexample: the duration `10^22` ms is a double, and on it the
divisions of `formatTime` round: the quotient by 60 of `10^19` seconds is
rounded to a multiple of 32, so the code prints 36 minutes where
`floor(d / 60000) mod 60` is 46. -/
theorem C1_counterexample :
    formatTime 10000000000000000000000 = "2777777777777777h 36m"
    ∧ toString (10000000000000000000000 / 3600000) ++ "h "
        ++ toString (10000000000000000000000 / 60000 % 60) ++ "m" = "2777777777777777h 46m"
    ∧ roundDouble 10000000000000000000000 = 10000000000000000000000 := by
  decide

/-- C1 (amended): for every non-negative integer duration `d` below `2^53`
(milliseconds), `formatTime d` is exactly the text `{h}h {m}m` with
`h = floor(d / 3600000)` and `m = floor(d / 60000) mod 60`, and `m` lies in
`0..59`, although the code divides by 1000, 60 and 60 in turn. -/
theorem C1_formatTime_closed_form (d : Nat) (hd : d < 2 ^ 53) :
    formatTime (d : Int) = toString (d / 3600000) ++ "h " ++ toString (d / 60000 % 60) ++ "m"
      ∧ d / 60000 % 60 < 60 :=
  ⟨formatTime_natCast d hd, Nat.mod_lt _ (by norm_num)⟩

/-- A witness for C1: the duration `3661000` ms of the specification. -/
theorem C1_formatTime_closed_form_witness :
    formatTime ((3661000 : Nat) : Int)
        = toString (3661000 / 3600000) ++ "h " ++ toString (3661000 / 60000 % 60) ++ "m"
      ∧ 3661000 / 60000 % 60 < 60 :=
  C1_formatTime_closed_form 3661000 (by norm_num)

/-! ### The maps -/

theorem lookup_assign_same {β : Type} (k : String) (v : β) (l : List (String × β)) :
    lookup k (assign k v l) = some v := by
  induction l with
  | nil => simp [assign, lookup]
  | cons hd tl ih =>
    obtain ⟨k1, v1⟩ := hd
    by_cases h : k1 = k
    · simp [assign, lookup, h]
    · simp [assign, lookup, h, ih]

theorem lookup_assign_ne {β : Type} (k k2 : String) (v : β) (l : List (String × β))
    (hne : k2 ≠ k) : lookup k2 (assign k v l) = lookup k2 l := by
  induction l with
  | nil =>
    have : ¬ k = k2 := fun h => hne h.symm
    simp [assign, lookup, this]
  | cons hd tl ih =>
    obtain ⟨k1, v1⟩ := hd
    by_cases h : k1 = k
    · have : ¬ k = k2 := fun h => hne h.symm
      have h2 : ¬ k1 = k2 := by rw [h]; exact this
      simp [assign, lookup, h, this]
    · by_cases h2 : k1 = k2
      · subst h2
        simp [assign, lookup, hne]
      · simp [assign, lookup, h, h2, ih]

/-! ### One event -/

theorem upsert_adminTimingData (ev : VoiceEvent) (adminId : String) (totalTime : Int)
    (s : Tracker) : (upsert ev adminId totalTime s).1.adminTimingData = s.adminTimingData := by
  unfold upsert
  split
  · rfl
  · split
    · rfl
    · split
      · split <;> rfl
      · rfl

theorem joins_member {ev : VoiceEvent} {role adminId : String}
    (h : ev.joins role adminId = true) :
    ∃ m, ev.member = some m ∧ m.id = adminId ∧ m.roles.contains role = true
      ∧ ev.newState.channel.isSome = true ∧ ev.oldState.channel.isNone = true := by
  unfold VoiceEvent.joins at h
  cases hm : ev.member with
  | none => simp [hm] at h
  | some m =>
    simp only [hm, Bool.and_eq_true, beq_iff_eq] at h
    exact ⟨m, rfl, h.1.1.1, h.1.1.2, h.1.2, h.2⟩

theorem leaves_member {ev : VoiceEvent} {role adminId : String}
    (h : ev.leaves role adminId = true) :
    ∃ m, ev.member = some m ∧ m.id = adminId ∧ m.roles.contains role = true
      ∧ ev.newState.channel.isNone = true ∧ ev.oldState.channel.isSome = true := by
  unfold VoiceEvent.leaves at h
  cases hm : ev.member with
  | none => simp [hm] at h
  | some m =>
    simp only [hm, Bool.and_eq_true, beq_iff_eq] at h
    exact ⟨m, rfl, h.1.1.1, h.1.1.2, h.1.2, h.2⟩

/-- A join of a role-holding member writes `joinTime = now` into the member's
record, making the record first when there is none, and writes nothing to the
channel. -/
theorem voiceStateUpdate_join {ev : VoiceEvent} {role adminId : String} (s : Tracker)
    (h : ev.joins role adminId = true) :
    voiceStateUpdate role ev s =
      (Tracker.mk
        (assign adminId
          (AdminRecord.mk
            ((lookup adminId s.adminTimingData).getD ⟨JSNum.undefined, [], none⟩).totalTime
            ((lookup adminId s.adminTimingData).getD ⟨JSNum.undefined, [], none⟩).sessions
            (some ev.now))
          s.adminTimingData)
        s.adminMessageIds, []) := by
  obtain ⟨m, hm, hid, hrole, hnew, hold⟩ := joins_member h
  subst hid
  have hrole2 : role ∈ m.roles := by simpa using hrole
  simp [voiceStateUpdate, hm, hrole2, hnew, hold]

/-- A leave of a role-holding member whose record holds a non-zero `joinTime`
closes the session. -/
theorem voiceStateUpdate_leave {ev : VoiceEvent} {role adminId : String} (s : Tracker)
    {r : AdminRecord} {j : Int} (h : ev.leaves role adminId = true)
    (hr : lookup adminId s.adminTimingData = some r) (hj : r.joinTime = some j) (h0 : j ≠ 0) :
    (voiceStateUpdate role ev s).1.adminTimingData =
      assign adminId
        ⟨JSNum.num (r.totalTime.orZero + (ev.now - j)), r.sessions ++ [⟨ev.now, ev.now - j⟩], none⟩
        s.adminTimingData := by
  obtain ⟨m, hm, hid, hrole, hnew, hold⟩ := leaves_member h
  subst hid
  have hnew2 : ev.newState.channel.isSome = false := by
    cases hc : ev.newState.channel <;> simp [hc] at hnew ⊢
  have hrole2 : role ∈ m.roles := by simpa using hrole
  simp [voiceStateUpdate, hm, hrole2, hnew, hold, hnew2, hr, hj, truthyNum, h0,
    upsert_adminTimingData]

/-! ### Sums of sessions -/

theorem foldl_timeSpent (l : List Session) (a : Int) :
    l.foldl (fun sum session => sum + session.timeSpent) a = a + sumTimeSpent l := by
  induction l generalizing a with
  | nil => simp [sumTimeSpent]
  | cons x xs ih =>
    simp only [sumTimeSpent, List.foldl_cons]
    rw [ih, ih (0 + x.timeSpent)]
    ring

theorem sumTimeSpent_nil : sumTimeSpent [] = 0 := rfl

theorem sumTimeSpent_cons (x : Session) (l : List Session) :
    sumTimeSpent (x :: l) = x.timeSpent + sumTimeSpent l := by
  simp only [sumTimeSpent, List.foldl_cons]
  rw [foldl_timeSpent]
  simp [sumTimeSpent]

theorem sumTimeSpent_append (l1 l2 : List Session) :
    sumTimeSpent (l1 ++ l2) = sumTimeSpent l1 + sumTimeSpent l2 := by
  induction l1 with
  | nil => simp [sumTimeSpent_nil]
  | cons x xs ih => simp only [List.cons_append, sumTimeSpent_cons, ih]; ring

/-! ### Frame: events that cause no transition -/

/-- C5: a presence-change event that causes no transition leaves the whole
tracker state (both maps) as it was and writes nothing to the channel.  The
three cases are: the member lacks the admin role; the occupancy does not change
(channel to channel, or none to none); a leave of a member whose record has no
open join timestamp (or who has no record). -/
theorem C5_no_transition_frame (role : String) (ev : VoiceEvent) (s : Tracker)
    (h : (∀ m, ev.member = some m → ¬ role ∈ m.roles)
      ∨ ev.newState.channel.isSome = ev.oldState.channel.isSome
      ∨ (ev.newState.channel.isSome = false ∧
          ∀ m, ev.member = some m →
            (lookup m.id s.adminTimingData).bind AdminRecord.joinTime = none)) :
    voiceStateUpdate role ev s = (s, []) := by
  unfold voiceStateUpdate
  cases hm : ev.member with
  | none => rfl
  | some m =>
    simp only []
    by_cases hrole : role ∈ m.roles
    · have hc : m.roles.contains role = true := by simpa using hrole
      simp only [hc]
      rcases h with h | h | ⟨hnew, hjt⟩
      · exact absurd hrole (h m hm)
      · cases hn : ev.newState.channel <;> cases ho : ev.oldState.channel <;>
          simp [hn, ho, hc] at h ⊢
      · have hj := hjt m hm
        cases hn : ev.newState.channel with
        | some c => simp [hn] at hnew
        | none =>
          cases hr : lookup m.id s.adminTimingData with
          | none => simp [hc, hr]
          | some r =>
            rw [hr] at hj
            have hj2 : r.joinTime = none := by simpa using hj
            simp [hc, hr, hj2]
    · have hc : m.roles.contains role = false := by simpa using hrole
      simp only [hc]
      rfl

/-- A witness for C5: a member without the role joins on the empty tracker. -/
theorem C5_no_transition_frame_witness :
    voiceStateUpdate exampleRole (exampleGuestJoin 5) Tracker.empty = (Tracker.empty, []) :=
  C5_no_transition_frame exampleRole (exampleGuestJoin 5) Tracker.empty
    (Or.inl (by decide))

/-! ### Join and leave -/

/-- The record of `adminId` after a join of that member at time `ev.now`. -/
theorem lookup_after_join {ev : VoiceEvent} {role adminId : String} (s : Tracker)
    (h : ev.joins role adminId = true) :
    lookup adminId (voiceStateUpdate role ev s).1.adminTimingData =
      some ⟨((lookup adminId s.adminTimingData).getD ⟨JSNum.undefined, [], none⟩).totalTime,
        ((lookup adminId s.adminTimingData).getD ⟨JSNum.undefined, [], none⟩).sessions,
        some ev.now⟩ := by
  rw [voiceStateUpdate_join s h]
  exact lookup_assign_same _ _ _

/-- The record of `adminId` after one join/leave cycle of that member, the join
at a non-zero time. -/
theorem lookup_after_cycle {join leave : VoiceEvent} {role adminId : String} (s : Tracker)
    (hj : join.joins role adminId = true) (hl : leave.leaves role adminId = true)
    (h0 : join.now ≠ 0) :
    lookup adminId (runEvents role [join, leave] s).adminTimingData =
      some ⟨JSNum.num
          (((lookup adminId s.adminTimingData).getD ⟨JSNum.undefined, [], none⟩).totalTime.orZero
            + (leave.now - join.now)),
        ((lookup adminId s.adminTimingData).getD ⟨JSNum.undefined, [], none⟩).sessions
          ++ [⟨leave.now, leave.now - join.now⟩],
        none⟩ := by
  simp only [runEvents]
  rw [voiceStateUpdate_leave _ hl (lookup_after_join s hj) rfl h0]
  exact lookup_assign_same _ _ _

/-- C4 counterexample, the falsy join time: a join at time `0` followed by a leave at time
`3661000`, on the empty tracker, closes no session. -/
theorem C4_counterexample :
    (exampleJoin 0).joins exampleRole exampleAdmin = true
      ∧ (exampleLeave 3661000).leaves exampleRole exampleAdmin = true
      ∧ lookup exampleAdmin Tracker.empty.adminTimingData = none
      ∧ lookup exampleAdmin (runEvents exampleRole [exampleJoin 0, exampleLeave 3661000]
          Tracker.empty).adminTimingData = some ⟨JSNum.undefined, [], some 0⟩ := by
  decide

/-- C4 (amended): when a role-holding admin with no prior record joins at a
time `t0 ≠ 0` and leaves at time `t1`, the record afterwards has exactly one
session, with timestamp `t1` and duration `t1 - t0`, its `totalTime` is
`t1 - t0`, and it has no open join timestamp. -/
theorem C4_single_cycle (role adminId : String) (s : Tracker) (join leave : VoiceEvent)
    (hs : lookup adminId s.adminTimingData = none)
    (hj : join.joins role adminId = true) (hl : leave.leaves role adminId = true)
    (h0 : join.now ≠ 0) :
    lookup adminId (runEvents role [join, leave] s).adminTimingData =
      some ⟨JSNum.num (leave.now - join.now), [⟨leave.now, leave.now - join.now⟩], none⟩ := by
  rw [lookup_after_cycle s hj hl h0, hs]
  simp [JSNum.orZero]

/-- A witness for C4: join at `1`, leave at `3661001`; the one session lasts
`3661000` ms, which `formatTime` renders as `1h 1m`. -/
theorem C4_single_cycle_witness :
    lookup exampleAdmin (runEvents exampleRole [exampleJoin 1, exampleLeave 3661001]
        Tracker.empty).adminTimingData
      = some ⟨JSNum.num (3661001 - 1), [⟨3661001, 3661001 - 1⟩], none⟩
      ∧ formatTime (3661001 - 1) = "1h 1m" :=
  ⟨C4_single_cycle exampleRole exampleAdmin Tracker.empty (exampleJoin 1) (exampleLeave 3661001)
    (by decide) (by decide) (by decide) (by decide), by decide⟩

/-- C9 counterexample: a second join overwrites the open join timestamp; the
record of `exampleAdmin` has
`joinTime = 1000`, a further join at `2000` leaves `joinTime = 2000`. -/
theorem C9_counterexample :
    lookup exampleAdmin
        (voiceStateUpdate exampleRole (exampleJoin 1000) Tracker.empty).1.adminTimingData
        = some ⟨JSNum.undefined, [], some 1000⟩
      ∧ (exampleJoin 2000).joins exampleRole exampleAdmin = true
      ∧ lookup exampleAdmin (voiceStateUpdate exampleRole (exampleJoin 2000)
          (voiceStateUpdate exampleRole (exampleJoin 1000) Tracker.empty).1).1.adminTimingData
        = some ⟨JSNum.undefined, [], some 2000⟩ := by
  decide

/-- C9 (amended): for an admin record, whatever its open join timestamp `t`,
a further join event of that admin at time `now` sets the open join timestamp
to `now` (the old value `t` is overwritten, not kept), leaves `totalTime` and
`sessions` unchanged, and writes nothing to the channel. -/
theorem C9_join_overwrites (role adminId : String) (s : Tracker) (r : AdminRecord)
    (ev : VoiceEvent) (hr : lookup adminId s.adminTimingData = some r)
    (hj : ev.joins role adminId = true) :
    lookup adminId (voiceStateUpdate role ev s).1.adminTimingData
        = some ⟨r.totalTime, r.sessions, some ev.now⟩
      ∧ (voiceStateUpdate role ev s).2 = [] := by
  refine ⟨?_, ?_⟩
  · rw [lookup_after_join s hj, hr]
    rfl
  · rw [voiceStateUpdate_join s hj]

/-- A witness for C9: the record of `exampleAdmin` has `joinTime = 1000` and total
`500`; a join at `2000` is applied. -/
theorem C9_join_overwrites_witness :
    lookup exampleAdmin (voiceStateUpdate exampleRole (exampleJoin 2000)
        ⟨[(exampleAdmin, ⟨JSNum.num 500, [⟨900, 500⟩], some 1000⟩)], []⟩).1.adminTimingData
        = some ⟨JSNum.num 500, [⟨900, 500⟩], some 2000⟩
      ∧ (voiceStateUpdate exampleRole (exampleJoin 2000)
        ⟨[(exampleAdmin, ⟨JSNum.num 500, [⟨900, 500⟩], some 1000⟩)], []⟩).2 = [] :=
  C9_join_overwrites exampleRole exampleAdmin
    ⟨[(exampleAdmin, ⟨JSNum.num 500, [⟨900, 500⟩], some 1000⟩)], []⟩
    ⟨JSNum.num 500, [⟨900, 500⟩], some 1000⟩ (exampleJoin 2000) (by decide) (by decide)

/-! ### Sequences of cycles -/

theorem runEvents_cycle (role : String) (join leave : VoiceEvent) (rest : List VoiceEvent)
    (s : Tracker) :
    runEvents role (join :: leave :: rest) s
      = runEvents role rest (runEvents role [join, leave] s) :=
  rfl

/-- Cycles applied to a record that is closed: each cycle appends its session
and adds its duration. -/
theorem lookup_after_cycles (role adminId : String) (cycles : List (VoiceEvent × VoiceEvent)) :
    ∀ (s : Tracker) (total : Int) (sessions : List Session),
      lookup adminId s.adminTimingData = some ⟨JSNum.num total, sessions, none⟩ →
      (∀ c ∈ cycles, c.1.joins role adminId = true ∧ c.2.leaves role adminId = true
        ∧ 0 < c.1.now) →
      lookup adminId (runEvents role (cycleEvents cycles) s).adminTimingData =
        some ⟨JSNum.num (total + sumTimeSpent (cycleSessions cycles)),
          sessions ++ cycleSessions cycles, none⟩ := by
  induction cycles with
  | nil =>
    intro s total sessions hs _
    simpa [cycleEvents, cycleSessions, runEvents, sumTimeSpent_nil] using hs
  | cons c rest ih =>
    intro s total sessions hs hc
    obtain ⟨join, leave⟩ := c
    have h1 := hc (join, leave) (List.mem_cons_self _ _)
    have hstep := lookup_after_cycle s h1.1 h1.2.1 (ne_of_gt h1.2.2)
    rw [hs] at hstep
    simp only [Option.getD_some, JSNum.orZero] at hstep
    have hrest := ih _ _ _ hstep (fun c hmem => hc c (List.mem_cons_of_mem _ hmem))
    simp only [cycleEvents]
    rw [runEvents_cycle, hrest]
    simp only [cycleSessions, List.map_cons, sumTimeSpent_cons, List.append_assoc,
      List.singleton_append]
    rw [add_assoc]

/-- C10: for every sequence of join/leave cycles of a role-holding admin with
no prior record, every join at a strictly positive time, the record afterwards
has one session per cycle, in event order, the i-th being the i-th leave time
with the duration leave minus join, its `totalTime` is the sum of these
durations, and no join is open.  (With no cycle at all there is no record.)
The ordering of the timestamps is not needed. -/
theorem C10_sequential_cycles (role adminId : String) (s : Tracker)
    (cycles : List (VoiceEvent × VoiceEvent))
    (hs : lookup adminId s.adminTimingData = none)
    (hc : ∀ c ∈ cycles, c.1.joins role adminId = true ∧ c.2.leaves role adminId = true
      ∧ 0 < c.1.now) :
    (cycles = [] → lookup adminId (runEvents role (cycleEvents cycles) s).adminTimingData = none)
    ∧ (cycles ≠ [] →
        lookup adminId (runEvents role (cycleEvents cycles) s).adminTimingData =
          some ⟨JSNum.num (sumTimeSpent (cycleSessions cycles)), cycleSessions cycles, none⟩)
    ∧ (cycleSessions cycles).length = cycles.length := by
  refine ⟨?_, ?_, ?_⟩
  · intro h
    subst h
    simpa [cycleEvents, runEvents] using hs
  · intro hne
    cases cycles with
    | nil => exact absurd rfl hne
    | cons c rest =>
      obtain ⟨join, leave⟩ := c
      have h1 := hc (join, leave) (List.mem_cons_self _ _)
      have hstep := lookup_after_cycle s h1.1 h1.2.1 (ne_of_gt h1.2.2)
      rw [hs] at hstep
      simp only [Option.getD_none, JSNum.orZero, zero_add, List.nil_append] at hstep
      have hrest := lookup_after_cycles role adminId rest _ _ _ hstep
        (fun c hmem => hc c (List.mem_cons_of_mem _ hmem))
      simp only [cycleEvents]
      rw [runEvents_cycle, hrest]
      simp only [cycleSessions, List.map_cons, sumTimeSpent_cons, List.singleton_append]
  · simp [cycleSessions]

/-- A witness for C10: two cycles of 60000 ms each, from the empty tracker,
give two sessions and a total of 120000. -/
theorem C10_sequential_cycles_witness :
    lookup exampleAdmin (runEvents exampleRole
        (cycleEvents
          [(exampleJoin 1000, exampleLeave 61000), (exampleJoin 61000, exampleLeave 121000)])
        Tracker.empty).adminTimingData
      = some ⟨JSNum.num 120000, [⟨61000, 60000⟩, ⟨121000, 60000⟩], none⟩ :=
  (C10_sequential_cycles exampleRole exampleAdmin Tracker.empty
    [(exampleJoin 1000, exampleLeave 61000), (exampleJoin 61000, exampleLeave 121000)]
    (by decide) (by decide)).2.1 (by decide)

/-! ### What one event can do to `adminTimingData` -/

/-- Every event leaves `adminTimingData` as it is, or stamps a join time on one
record, or closes one session of a record with a non-zero join time. -/
theorem voiceStateUpdate_cases (role : String) (ev : VoiceEvent) (s : Tracker) :
    (voiceStateUpdate role ev s).1.adminTimingData = s.adminTimingData
    ∨ (∃ adminId,
        (voiceStateUpdate role ev s).1.adminTimingData =
          assign adminId
            ⟨((lookup adminId s.adminTimingData).getD ⟨JSNum.undefined, [], none⟩).totalTime,
              ((lookup adminId s.adminTimingData).getD ⟨JSNum.undefined, [], none⟩).sessions,
              some ev.now⟩ s.adminTimingData)
    ∨ (∃ adminId r j, lookup adminId s.adminTimingData = some r ∧ r.joinTime = some j ∧ j ≠ 0
        ∧ (voiceStateUpdate role ev s).1.adminTimingData =
          assign adminId
            ⟨JSNum.num (r.totalTime.orZero + (ev.now - j)),
              r.sessions ++ [⟨ev.now, ev.now - j⟩], none⟩ s.adminTimingData) := by
  cases hm : ev.member with
  | none => left; simp [voiceStateUpdate, hm]
  | some m =>
    by_cases hrole : m.roles.contains role = true
    · by_cases hjoin : (ev.newState.channel.isSome && ev.oldState.channel.isNone) = true
      · right; left
        refine ⟨m.id, ?_⟩
        have hj : ev.joins role m.id = true := by
          simp only [VoiceEvent.joins, hm, beq_self_eq_true, hrole, Bool.true_and]
          exact hjoin
        rw [voiceStateUpdate_join s hj]
      · by_cases hleave : (ev.newState.channel.isNone && ev.oldState.channel.isSome) = true
        · have hl : ev.leaves role m.id = true := by
            simp only [VoiceEvent.leaves, hm, beq_self_eq_true, hrole, Bool.true_and]
            exact hleave
          cases hr : lookup m.id s.adminTimingData with
          | none => left; simp [voiceStateUpdate, hm, hrole, hjoin, hleave, hr]
          | some r =>
            cases hjt : r.joinTime with
            | none => left; simp [voiceStateUpdate, hm, hrole, hjoin, hleave, hr, hjt]
            | some j =>
              by_cases h0 : j = 0
              · left; simp [voiceStateUpdate, hm, hrole, hjoin, hleave, hr, hjt, h0, truthyNum]
              · right; right
                exact ⟨m.id, r, j, hr, hjt, h0, voiceStateUpdate_leave s hl hr hjt h0⟩
        · left; simp [voiceStateUpdate, hm, hrole, hjoin, hleave]
    · left
      have hrole2 : role ∉ m.roles := by simpa using hrole
      simp [voiceStateUpdate, hm, hrole2]

/-! ### Startup reconciliation leaves closed records without history -/

theorem lookup_assign (k k2 : String) {β : Type} (v : β) (l : List (String × β)) :
    lookup k2 (assign k v l) = if k2 = k then some v else lookup k2 l := by
  by_cases h : k2 = k
  · subst h
    simp [lookup_assign_same]
  · simp [h, lookup_assign_ne k k2 v l h]

theorem forEachMessage_fresh (messages : List Message) :
    ∀ s : Tracker,
      (∀ id r, lookup id s.adminTimingData = some r → r.sessions = [] ∧ r.joinTime = none) →
      ∀ id r, lookup id (forEachMessage messages s).state.adminTimingData = some r →
        r.sessions = [] ∧ r.joinTime = none := by
  induction messages with
  | nil => intro s hs; simpa [forEachMessage] using hs
  | cons m rest ih =>
    intro s hs
    cases hp : parseMessage m with
    | none => simpa [forEachMessage, hp] using hs
    | some p =>
      obtain ⟨userId, totalTime⟩ := p
      simp only [forEachMessage, hp]
      apply ih
      intro id r hr
      unfold seedRecord at hr
      split at hr
      · exact hs id r hr
      · simp only [lookup_assign] at hr
        split at hr
        · cases hr
          exact ⟨rfl, rfl⟩
        · exact hs id r hr

theorem startup_fresh (messages : List Message) (id : String) (r : AdminRecord)
    (hr : lookup id (startup messages).adminTimingData = some r) :
    r.sessions = [] ∧ r.joinTime = none := by
  refine forEachMessage_fresh messages Tracker.empty ?_ id r hr
  intro id r h
  simp [Tracker.empty, lookup] at h

/-! ### The total and the sum of the sessions -/

/-- The bookkeeping relation kept by every event: for each key, the total (read
with `|| 0`) is `seed` plus the sum of the sessions, a missing record counting
as an empty one. -/
theorem voiceStateUpdate_total (role : String) (ev : VoiceEvent) (s : Tracker)
    (seed : String → Int)
    (h : ∀ id, ((lookup id s.adminTimingData).getD ⟨JSNum.undefined, [], none⟩).totalTime.orZero
        = seed id
          + sumTimeSpent ((lookup id s.adminTimingData).getD ⟨JSNum.undefined, [], none⟩).sessions) :
    ∀ id, ((lookup id (voiceStateUpdate role ev s).1.adminTimingData).getD
          ⟨JSNum.undefined, [], none⟩).totalTime.orZero
        = seed id
          + sumTimeSpent ((lookup id (voiceStateUpdate role ev s).1.adminTimingData).getD
              ⟨JSNum.undefined, [], none⟩).sessions := by
  intro id
  rcases voiceStateUpdate_cases role ev s with hc | ⟨a, hc⟩ | ⟨a, r, j, hr, _, _, hc⟩
  · rw [hc]; exact h id
  · rw [hc, lookup_assign]
    by_cases hid : id = a
    · subst hid
      simpa using h id
    · simpa [hid] using h id
  · rw [hc, lookup_assign]
    by_cases hid : id = a
    · subst hid
      have := h id
      rw [hr] at this
      simp only [Option.getD_some] at this
      simp only [if_true, Option.getD_some, orZero_num, sumTimeSpent_append, sumTimeSpent_cons,
        sumTimeSpent_nil, this]
      ring
    · simpa [hid] using h id

theorem runEvents_total (role : String) (evs : List VoiceEvent) :
    ∀ (s : Tracker) (seed : String → Int),
      (∀ id, ((lookup id s.adminTimingData).getD ⟨JSNum.undefined, [], none⟩).totalTime.orZero
        = seed id
          + sumTimeSpent ((lookup id s.adminTimingData).getD ⟨JSNum.undefined, [], none⟩).sessions) →
      ∀ id, ((lookup id (runEvents role evs s).adminTimingData).getD
            ⟨JSNum.undefined, [], none⟩).totalTime.orZero
          = seed id
            + sumTimeSpent ((lookup id (runEvents role evs s).adminTimingData).getD
                ⟨JSNum.undefined, [], none⟩).sessions := by
  induction evs with
  | nil => intro s seed h; simpa [runEvents] using h
  | cons ev rest ih =>
    intro s seed h
    simp only [runEvents]
    exact ih _ seed (voiceStateUpdate_total role ev s seed h)

/-- C3 counterexample: the seeded total is not the sum of an empty history; one message with
`Total Time: 7200000` gives `totalTime = 7200000` and no session. -/
theorem C3_counterexample :
    lookup exampleAdmin (runEvents exampleRole []
        (startup [exampleMessage])).adminTimingData
      = some ⟨JSNum.num 7200000, [], none⟩
    ∧ JSNum.num 7200000 ≠ JSNum.num (sumTimeSpent []) := by
  decide

theorem lookup_mem {β : Type} (k : String) (v : β) (l : List (String × β))
    (h : lookup k l = some v) : (k, v) ∈ l := by
  induction l with
  | nil => simp [lookup] at h
  | cons hd tl ih =>
    obtain ⟨k1, v1⟩ := hd
    simp only [lookup] at h
    split at h
    · rename_i hk
      simp only [Option.some.injEq] at h
      subst hk
      subst h
      exact List.mem_cons_self _ _
    · exact List.mem_cons_of_mem _ (ih h)

theorem runSafe_final (role : String) (evs : List VoiceEvent) :
    ∀ s : Tracker, runSafe role evs s = true → trackerSafe (runEvents role evs s) = true := by
  induction evs with
  | nil => intro s h; simpa [runSafe, runEvents] using h
  | cons ev rest ih =>
    intro s h
    simp only [runSafe, Bool.and_eq_true] at h
    simp only [runEvents]
    exact ih _ h.2

/-- C3 (amended): in every tracker state reachable by startup reconciliation
followed by any sequence of presence-change events, as long as the clock
values, the totals and the session durations that occur are safe integers
(below `2^53` in magnitude), every admin record satisfies
`(totalTime || 0) == seeded + sum of timeSpent over sessions`, where `seeded` is
the total that reconciliation left for that admin (`0` when it left none, or
left `NaN`); the total is then itself a safe integer. -/
theorem C3_total_is_seed_plus_sessions (role : String) (messages : List Message)
    (evs : List VoiceEvent) (adminId : String) (r : AdminRecord)
    (hsafe : runSafe role evs (startup messages) = true)
    (hr : lookup adminId (runEvents role evs (startup messages)).adminTimingData = some r) :
    r.totalTime.orZero = seededTotal (startup messages) adminId + sumTimeSpent r.sessions
    ∧ r.totalTime.orZero.natAbs < 2 ^ 53 := by
  have base : ∀ id,
      ((lookup id (startup messages).adminTimingData).getD
          ⟨JSNum.undefined, [], none⟩).totalTime.orZero
        = seededTotal (startup messages) id
          + sumTimeSpent ((lookup id (startup messages).adminTimingData).getD
              ⟨JSNum.undefined, [], none⟩).sessions := by
    intro id
    unfold seededTotal
    cases h : lookup id (startup messages).adminTimingData with
    | none => simp [JSNum.orZero, sumTimeSpent_nil]
    | some r0 =>
      have hf := startup_fresh messages id r0 h
      simp [hf.1, sumTimeSpent_nil]
  have := runEvents_total role evs (startup messages) (seededTotal (startup messages)) base adminId
  rw [hr] at this
  refine ⟨by simpa using this, ?_⟩
  have hfinal := runSafe_final role evs (startup messages) hsafe
  have hmem := lookup_mem adminId r _ hr
  simp only [trackerSafe, List.all_eq_true] at hfinal
  have hrec := hfinal (adminId, r) hmem
  simp only [recordSafe, safeInt, Bool.and_eq_true, decide_eq_true_eq] at hrec
  exact hrec.1

/-- A witness for C3: the admin `exampleAdmin` is seeded with `7200000` and then
completes one cycle of `60000` ms. -/
theorem C3_total_is_seed_plus_sessions_witness :
    (JSNum.num 7260000).orZero
      = seededTotal (startup [exampleMessage]) exampleAdmin
        + sumTimeSpent [⟨61000, 60000⟩]
    ∧ (JSNum.num 7260000).orZero.natAbs < 2 ^ 53 :=
  C3_total_is_seed_plus_sessions exampleRole [exampleMessage]
    [exampleJoin 1000, exampleLeave 61000] exampleAdmin ⟨JSNum.num 7260000, [⟨61000, 60000⟩], none⟩
    (by decide) (by decide)

/-! ### Windowed sums against the total -/

theorem windowSum_le_sum (l : List Session) (lowerBound : Int)
    (hl : ∀ x ∈ l, 0 ≤ x.timeSpent) : windowSum l lowerBound ≤ sumTimeSpent l := by
  unfold windowSum
  induction l with
  | nil => simp
  | cons x xs ih =>
    have hx := hl x (List.mem_cons_self _ _)
    have hxs := ih (fun y hy => hl y (List.mem_cons_of_mem _ hy))
    by_cases hp : x.timestamp ≥ lowerBound
    · simp only [List.filter_cons, hp, decide_True, if_true, sumTimeSpent_cons]
      omega
    · simp only [List.filter_cons, hp, decide_False, sumTimeSpent_cons]
      simp only [Bool.false_eq_true, if_false]
      omega

/-- The relation kept by an event that arrives no earlier than `t`: open join
times are at most the clock, closed durations are not negative, and the sum of
the sessions is at most the total (read with `|| 0`). -/
theorem voiceStateUpdate_bounds (role : String) (ev : VoiceEvent) (s : Tracker) (t : Int)
    (ht : t ≤ ev.now)
    (h : ∀ id r, lookup id s.adminTimingData = some r →
      (∀ j, r.joinTime = some j → j ≤ t) ∧ (∀ x ∈ r.sessions, 0 ≤ x.timeSpent)
        ∧ sumTimeSpent r.sessions ≤ r.totalTime.orZero) :
    ∀ id r, lookup id (voiceStateUpdate role ev s).1.adminTimingData = some r →
      (∀ j, r.joinTime = some j → j ≤ ev.now) ∧ (∀ x ∈ r.sessions, 0 ≤ x.timeSpent)
        ∧ sumTimeSpent r.sessions ≤ r.totalTime.orZero := by
  intro id r hr
  have keep : ∀ r, lookup id s.adminTimingData = some r →
      (∀ j, r.joinTime = some j → j ≤ ev.now) ∧ (∀ x ∈ r.sessions, 0 ≤ x.timeSpent)
        ∧ sumTimeSpent r.sessions ≤ r.totalTime.orZero := by
    intro r0 h0
    obtain ⟨h1, h2, h3⟩ := h id r0 h0
    exact ⟨fun j hj => le_trans (h1 j hj) ht, h2, h3⟩
  rcases voiceStateUpdate_cases role ev s with hc | ⟨a, hc⟩ | ⟨a, r1, j, hr1, hj1, _, hc⟩
  · rw [hc] at hr
    exact keep r hr
  · rw [hc, lookup_assign] at hr
    by_cases hid : id = a
    · subst hid
      simp only [if_true, Option.some.injEq] at hr
      subst hr
      cases h0 : lookup id s.adminTimingData with
      | none =>
        simp only [Option.getD_none]
        refine ⟨?_, ?_, ?_⟩
        · intro j hj
          simp only [Option.some.injEq] at hj
          omega
        · intro x hx
          simp at hx
        · simp [sumTimeSpent_nil, JSNum.orZero]
      | some r0 =>
        obtain ⟨_, h2, h3⟩ := h id r0 h0
        simp only [Option.getD_some]
        refine ⟨?_, h2, h3⟩
        intro j hj
        simp only [Option.some.injEq] at hj
        omega
    · simp only [hid, if_false] at hr
      exact keep r hr
  · rw [hc, lookup_assign] at hr
    by_cases hid : id = a
    · subst hid
      simp only [if_true, Option.some.injEq] at hr
      subst hr
      obtain ⟨h1, h2, h3⟩ := h id r1 hr1
      have hjt := h1 j hj1
      refine ⟨?_, ?_, ?_⟩
      · intro j2 hj2
        simp at hj2
      · intro x hx
        simp only [List.mem_append, List.mem_singleton] at hx
        rcases hx with hx | hx
        · exact h2 x hx
        · subst hx
          show 0 ≤ ev.now - j
          omega
      · simp only [sumTimeSpent_append, sumTimeSpent_cons, sumTimeSpent_nil, orZero_num]
        omega
    · simp only [hid, if_false] at hr
      exact keep r hr

theorem runEvents_bounds (role : String) (evs : List VoiceEvent) :
    ∀ (s : Tracker) (t : Int),
      List.Chain (fun a b => a ≤ b) t (evs.map VoiceEvent.now) →
      (∀ id r, lookup id s.adminTimingData = some r →
        (∀ j, r.joinTime = some j → j ≤ t) ∧ (∀ x ∈ r.sessions, 0 ≤ x.timeSpent)
          ∧ sumTimeSpent r.sessions ≤ r.totalTime.orZero) →
      ∀ id r, lookup id (runEvents role evs s).adminTimingData = some r →
        (∀ x ∈ r.sessions, 0 ≤ x.timeSpent) ∧ sumTimeSpent r.sessions ≤ r.totalTime.orZero := by
  induction evs with
  | nil =>
    intro s t _ h id r hr
    exact (h id r hr).2
  | cons ev rest ih =>
    intro s t hchain h
    simp only [List.map_cons, List.chain_cons] at hchain
    simp only [runEvents]
    exact ih _ ev.now hchain.2 (voiceStateUpdate_bounds role ev s t hchain.1 h)

/-- C7 counterexample: two states in which a windowed sum exceeds the reported
total; the page is rendered at `1700006420000`, twenty seconds after the
midnight `1700006400000`.  First, a channel message with `Total Time: -5000`
seeds a negative total, above which the empty sums `0` lie.  Second, the clock
steps back across that midnight between a join (at `1700006401000`) and the
leave (at `1700006399000`), which records a session of `-2000` ms that ends on
the day before; with a later session of `1000` ms the total is `-1000`, and
the sum of the day is `1000`. -/
theorem C7_counterexample :
    (renderSnapshot
        (runEvents exampleRole [] (startup [exampleNegativeMessage]))
        (fun _ => ⟨some ("bob", "url"), none, 1700006420000, 1700006400000⟩)
      = [[("adminId", JSVal.str exampleAdmin), ("username", JSVal.str "bob"),
          ("nickname", JSVal.str "bob"), ("avatar", JSVal.str "url"),
          ("totalTime", JSVal.num (-5000)), ("todayTime", JSVal.num 0),
          ("weeklyTime", JSVal.num 0), ("monthlyTime", JSVal.num 0)]]
      ∧ ¬ ((0 : Int) ≤ -5000))
    ∧ (renderSnapshot
        (runEvents exampleRole
          [exampleJoin 1700006401000, exampleLeave 1700006399000,
            exampleJoin 1700006410000, exampleLeave 1700006411000] (startup []))
        (fun _ => ⟨some ("bob", "url"), none, 1700006420000, 1700006400000⟩)
      = [[("adminId", JSVal.str exampleAdmin), ("username", JSVal.str "bob"),
          ("nickname", JSVal.str "bob"), ("avatar", JSVal.str "url"),
          ("totalTime", JSVal.num (-1000)), ("todayTime", JSVal.num 1000),
          ("weeklyTime", JSVal.num (-1000)), ("monthlyTime", JSVal.num (-1000))]]
      ∧ ¬ ((1000 : Int) ≤ -1000)) := by
  decide

/-- C7 (amended): when startup reconciliation seeded no negative total and the
clock values of the events are non-decreasing, then for every admin record of
the state reached and every render time, the entry rendered for that admin
reports `totalTime || 0` and the three windowed sums of its sessions, and each
of `todayTime`, `weeklyTime` and `monthlyTime` is at most that `totalTime`. -/
theorem C7_windows_le_total (role : String) (messages : List Message) (evs : List VoiceEvent)
    (adminId : String) (r : AdminRecord) (env : Lookup) (obj : List (String × JSVal))
    (hseed : ∀ id r0, lookup id (startup messages).adminTimingData = some r0 →
      0 ≤ r0.totalTime.orZero)
    (hclock : List.Chain' (fun a b => a ≤ b) (evs.map VoiceEvent.now))
    (hr : lookup adminId (runEvents role evs (startup messages)).adminTimingData = some r)
    (hobj : renderAdmin adminId r env = some obj) :
    lookup "totalTime" obj = some (JSVal.num r.totalTime.orZero)
    ∧ lookup "todayTime" obj = some (JSVal.num (windowSum r.sessions env.todayStart))
    ∧ lookup "weeklyTime" obj
        = some (JSVal.num (windowSum r.sessions (env.now - 7 * 24 * 60 * 60 * 1000)))
    ∧ lookup "monthlyTime" obj
        = some (JSVal.num (windowSum r.sessions (env.now - 30 * 24 * 60 * 60 * 1000)))
    ∧ windowSum r.sessions env.todayStart ≤ r.totalTime.orZero
    ∧ windowSum r.sessions (env.now - 7 * 24 * 60 * 60 * 1000) ≤ r.totalTime.orZero
    ∧ windowSum r.sessions (env.now - 30 * 24 * 60 * 60 * 1000) ≤ r.totalTime.orZero := by
  have base : ∀ t : Int, ∀ id r0, lookup id (startup messages).adminTimingData = some r0 →
      (∀ j, r0.joinTime = some j → j ≤ t) ∧ (∀ x ∈ r0.sessions, 0 ≤ x.timeSpent)
        ∧ sumTimeSpent r0.sessions ≤ r0.totalTime.orZero := by
    intro t id r0 h0
    obtain ⟨hs, hj⟩ := startup_fresh messages id r0 h0
    refine ⟨?_, ?_, ?_⟩
    · intro j hj2
      rw [hj] at hj2
      cases hj2
    · intro x hx
      rw [hs] at hx
      cases hx
    · rw [hs, sumTimeSpent_nil]
      exact hseed id r0 h0
  have hb : (∀ x ∈ r.sessions, 0 ≤ x.timeSpent) ∧ sumTimeSpent r.sessions ≤ r.totalTime.orZero := by
    cases evs with
    | nil =>
      simp only [runEvents] at hr
      exact (base 0 adminId r hr).2
    | cons ev rest =>
      refine runEvents_bounds role (ev :: rest) (startup messages) ev.now ?_ (base ev.now)
        adminId r hr
      simp only [List.map_cons, List.chain_cons]
      exact ⟨le_refl _, hclock⟩
  have hw : ∀ lb, windowSum r.sessions lb ≤ r.totalTime.orZero :=
    fun lb => le_trans (windowSum_le_sum r.sessions lb hb.1) hb.2
  unfold renderAdmin at hobj
  cases hu : env.user with
  | none => simp [hu] at hobj
  | some u =>
    obtain ⟨username, avatar⟩ := u
    simp only [hu, Option.some.injEq] at hobj
    subst hobj
    refine ⟨rfl, rfl, rfl, rfl, hw _, hw _, hw _⟩

/-- A witness for C7: the admin `exampleAdmin` is seeded with `7200000` and completes one
cycle of `60000` ms; the page is rendered at `100000` with the day starting at
`0`. -/
theorem C7_windows_le_total_witness :
    windowSum [⟨61000, 60000⟩] 0 ≤ (JSNum.num 7260000).orZero
    ∧ windowSum [⟨61000, 60000⟩] (100000 - 7 * 24 * 60 * 60 * 1000) ≤ (JSNum.num 7260000).orZero
    ∧ windowSum [⟨61000, 60000⟩] (100000 - 30 * 24 * 60 * 60 * 1000)
        ≤ (JSNum.num 7260000).orZero :=
  (C7_windows_le_total exampleRole [exampleMessage]
    [exampleJoin 1000, exampleLeave 61000] exampleAdmin ⟨JSNum.num 7260000, [⟨61000, 60000⟩], none⟩
    ⟨some ("bob", "url"), none, 100000, 0⟩
    [("adminId", JSVal.str exampleAdmin), ("username", JSVal.str "bob"),
      ("nickname", JSVal.str "bob"),
      ("avatar", JSVal.str "url"), ("totalTime", JSVal.num 7260000),
      ("todayTime", JSVal.num 60000), ("weeklyTime", JSVal.num 60000),
      ("monthlyTime", JSVal.num 60000)]
    (by
      intro id r0 h
      have hs : startup [exampleMessage]
          = ⟨[(exampleAdmin, ⟨JSNum.num 7200000, [], none⟩)], [(exampleAdmin, "m1")]⟩ := by decide
      rw [hs] at h
      simp only [lookup] at h
      split at h
      · cases h
        decide
      · cases h)
    (by simp [exampleJoin, exampleLeave]) (by decide) (by decide)).2.2.2.2

/-! ### Startup reconciliation, message by message -/

theorem parseMessage_isSome (message : Message) :
    (parseMessage message).isSome = hasTwoLines message := by
  unfold parseMessage hasTwoLines
  cases h : jsSplit message.content "\n" with
  | nil => simp
  | cons a rest =>
    cases rest with
    | nil => simp
    | cons b rest2 => simp

theorem forEachMessage_takeWhile (messages : List Message) :
    ∀ s : Tracker, forEachMessage messages s =
      ⟨(messages.takeWhile hasTwoLines).foldl seedFrom s, messages.all hasTwoLines⟩ := by
  induction messages with
  | nil => intro s; rfl
  | cons m rest ih =>
    intro s
    have hm := parseMessage_isSome m
    cases hp : parseMessage m with
    | none =>
      rw [hp] at hm
      have hm2 : hasTwoLines m = false := by simpa using hm.symm
      simp [forEachMessage, hp, List.takeWhile_cons, hm2]
    | some p =>
      obtain ⟨userId, totalTime⟩ := p
      rw [hp] at hm
      have hm2 : hasTwoLines m = true := by simpa using hm.symm
      simp [forEachMessage, hp, List.takeWhile_cons, hm2, ih, seedFrom]

/-! ### The written record against the parser -/

theorem splitGo_ne_nil (sep : List Char) (l : List Char) :
    ∀ (skip : Nat) (acc : List Char), splitGo sep l skip acc ≠ [] := by
  induction l with
  | nil => intro skip acc; simp [splitGo]
  | cons c cs ih =>
    intro skip acc
    cases skip with
    | zero =>
      simp only [splitGo]
      split
      · simp
      · exact ih _ _
    | succ k =>
      simp only [splitGo]
      exact ih _ _

/-- The content written by the upsert starts with a line break, so its first
line is empty and the parser reads the key `undefined` from it, whatever the
admin id, the total and the display name are. -/
theorem parseMessage_messageContent_key (messageId adminId nickname : String) (totalTime : Int) :
    (parseMessage ⟨messageId, messageContent adminId totalTime nickname⟩).map Prod.fst
      = some "undefined" := by
  obtain ⟨rest, hrest⟩ : ∃ rest, (messageContent adminId totalTime nickname).toList
      = '\n' :: rest := by
    unfold messageContent
    simp only [String.toList, String.data_append]
    exact ⟨_, rfl⟩
  have hsplit : jsSplit (messageContent adminId totalTime nickname) "\n"
      = "" :: (splitGo ['\n'] rest 0 []).map String.mk := by
    unfold jsSplit
    rw [hrest]
    rfl
  obtain ⟨line, more, hl⟩ : ∃ line more, splitGo ['\n'] rest 0 [] = line :: more := by
    cases h : splitGo ['\n'] rest 0 [] with
    | nil => exact absurd h (splitGo_ne_nil _ _ _ _)
    | cons a b => exact ⟨a, b, rfl⟩
  have hkey : keyOf ((jsSplit "" ": ")[1]?) = "undefined" := by decide
  simp only [parseMessage, hsplit, hl, List.map_cons, List.headD_cons]
  simp [hkey]

/-! ### The page data -/

/-- No entry of the page data has a `sessions` property, for any record and any
answer of the identity lookup. -/
theorem renderAdmin_no_sessions (adminId : String) (record : AdminRecord) (env : Lookup)
    (obj : List (String × JSVal)) (h : renderAdmin adminId record env = some obj) :
    lookup "sessions" obj = none := by
  unfold renderAdmin at h
  cases hu : env.user with
  | none => simp [hu] at h
  | some u =>
    obtain ⟨username, avatar⟩ := u
    simp only [hu, Option.some.injEq] at h
    subst h
    rfl

/-- C8, failing on the code: no entry of the page data has a `sessions`
property, whatever the record and the identity lookup are, so `showToday` fails
on every entry.  At a concrete input: `exampleAdmin` has one closed session in
memory, and the entry that `showDetails` finds for `exampleAdmin` carries the
total and the three sums but no `sessions`. -/
theorem C8_entry_has_no_sessions (adminId : String) (record : AdminRecord) (env : Lookup)
    (todayStart : Int) :
    (renderAdmin adminId record env).bind (fun obj => lookup "sessions" obj) = none
    ∧ (renderAdmin adminId record env).bind (fun obj => showToday obj todayStart) = none
    ∧ lookup exampleAdmin
        (runEvents exampleRole [exampleJoin 1700000000000, exampleLeave 1700000060000]
          Tracker.empty).adminTimingData
      = some ⟨JSNum.num 60000, [⟨1700000060000, 60000⟩], none⟩
    ∧ showDetails
        (renderSnapshot
          (runEvents exampleRole [exampleJoin 1700000000000, exampleLeave 1700000060000]
            Tracker.empty)
          (fun _ => ⟨some ("bob", "url"), none, 1700000100000, 1699920000000⟩)) exampleAdmin
      = some [("adminId", JSVal.str exampleAdmin), ("username", JSVal.str "bob"),
          ("nickname", JSVal.str "bob"), ("avatar", JSVal.str "url"),
          ("totalTime", JSVal.num 60000), ("todayTime", JSVal.num 60000),
          ("weeklyTime", JSVal.num 60000), ("monthlyTime", JSVal.num 60000)]
    ∧ showToday
        [("adminId", JSVal.str exampleAdmin), ("username", JSVal.str "bob"),
          ("nickname", JSVal.str "bob"), ("avatar", JSVal.str "url"),
          ("totalTime", JSVal.num 60000), ("todayTime", JSVal.num 60000),
          ("weeklyTime", JSVal.num 60000), ("monthlyTime", JSVal.num 60000)] 1699920000000
      = none := by
  refine ⟨?_, ?_, by decide⟩
  · cases h : renderAdmin adminId record env with
    | none => rfl
    | some obj => exact renderAdmin_no_sessions adminId record env obj h
  · cases h : renderAdmin adminId record env with
    | none => rfl
    | some obj =>
      have hs := renderAdmin_no_sessions adminId record env obj h
      simp [showToday, hs]

/-! ### `parseInt` on a decimal numeral -/

theorem digitChar_decimal :
    ∀ k, k < 10 → Nat.digitChar k ∈ decimalDigits ∧ digitValue 10 (Nat.digitChar k) = some k := by
  decide

theorem decimalDigits_facts :
    ∀ c ∈ decimalDigits, isJSWhiteSpace c = false ∧ c ≠ '-' ∧ c ≠ '+' ∧ c ≠ 'x' ∧ c ≠ 'X'
      ∧ c ≠ ':' ∧ c ≠ '\n' ∧ (digitValue 10 c).isSome = true := by
  decide

theorem readDigits_append (p rest : List Char) (hp : ∀ c ∈ p, c ∈ decimalDigits) :
    ∀ acc, readDigits 10 (p ++ rest) acc = readDigits 10 rest (readDigits 10 p acc) := by
  induction p with
  | nil => intro acc; simp [readDigits]
  | cons c cs ih =>
    intro acc
    have hc := (decimalDigits_facts c (hp c (List.mem_cons_self _ _))).2.2.2.2.2.2.2
    obtain ⟨d, hd⟩ := Option.isSome_iff_exists.mp hc
    simp only [List.cons_append, readDigits, hd]
    exact ih (fun x hx => hp x (List.mem_cons_of_mem _ hx)) _

/-- The digits that `Nat.repr` produces, read back by `readDigits`. -/
theorem toDigitsCore_readDigits (fuel : Nat) :
    ∀ (n : Nat) (ds : List Char), n < fuel →
      ∃ pre, Nat.toDigitsCore 10 fuel n ds = pre ++ ds ∧ pre ≠ []
        ∧ (∀ c ∈ pre, c ∈ decimalDigits)
        ∧ ∀ a, readDigits 10 pre (some a) = some (a * 10 ^ pre.length + n) := by
  induction fuel with
  | zero => intro n ds h; omega
  | succ fuel ih =>
    intro n ds h
    have hd := digitChar_decimal (n % 10) (Nat.mod_lt _ (by norm_num))
    by_cases h0 : n / 10 = 0
    · refine ⟨[Nat.digitChar (n % 10)], ?_, by simp, ?_, ?_⟩
      · simp [Nat.toDigitsCore, h0]
      · intro c hc
        simp only [List.mem_singleton] at hc
        rw [hc]
        exact hd.1
      · intro a
        have hn : n % 10 = n := by omega
        simp only [readDigits, hd.2, Option.getD_some, List.length_singleton, pow_one]
        rw [hn]
    · have hlt : n / 10 < fuel := by omega
      obtain ⟨pre, hpre, _, hdig, hval⟩ := ih (n / 10) (Nat.digitChar (n % 10) :: ds) hlt
      refine ⟨pre ++ [Nat.digitChar (n % 10)], ?_, by simp, ?_, ?_⟩
      · simp [Nat.toDigitsCore, h0, hpre]
      · intro c hc
        simp only [List.mem_append, List.mem_singleton] at hc
        rcases hc with hc | hc
        · exact hdig c hc
        · rw [hc]
          exact hd.1
      · intro a
        rw [readDigits_append pre _ hdig, hval a]
        simp only [readDigits, hd.2, Option.getD_some, List.length_append, List.length_singleton]
        congr 1
        rw [pow_succ]
        have := Nat.div_add_mod n 10
        nlinarith [this]

theorem readSign_of_digit (c : Char) (cs : List Char) (h1 : c ≠ '-') (h2 : c ≠ '+') :
    readSign (c :: cs) = (1, c :: cs) := by
  unfold readSign
  split
  · rename_i heq
    simp only [List.cons.injEq] at heq
    exact absurd heq.1 h1
  · rename_i heq
    simp only [List.cons.injEq] at heq
    exact absurd heq.1 h2
  · rfl

theorem readRadix_of_digits (l : List Char) (h : ∀ c ∈ l, c ≠ 'x' ∧ c ≠ 'X') :
    readRadix l = (10, l) := by
  unfold readRadix
  split
  · rename_i cs
    exact absurd rfl (h 'x' (by simp)).1
  · rename_i cs
    exact absurd rfl (h 'X' (by simp)).2
  · rfl

/-- On the decimal numeral of a natural number below `2^53` `parseInt` gives
that number. -/
theorem parseInt_toString (n : Nat) (hn : n < 2 ^ 53) :
    parseInt (some (toString n)) = JSNum.num (n : Int) := by
  have hround : roundDouble n = n := by
    unfold roundDouble
    rw [if_pos hn]
  obtain ⟨pre, hpre, hne, hdig, hval⟩ := toDigitsCore_readDigits (n + 1) n [] (Nat.lt_succ_self n)
  have hlist : (toString n).toList = pre := by
    show Nat.toDigitsCore 10 (n + 1) n [] = pre
    simpa using hpre
  cases pre with
  | nil => exact absurd rfl hne
  | cons c cs =>
    have hc := decimalDigits_facts c (hdig c (List.mem_cons_self _ _))
    have hxs : ∀ x ∈ c :: cs, x ≠ 'x' ∧ x ≠ 'X' := fun x hx =>
      ⟨(decimalDigits_facts x (hdig x hx)).2.2.2.1, (decimalDigits_facts x (hdig x hx)).2.2.2.2.1⟩
    obtain ⟨d, hd⟩ := Option.isSome_iff_exists.mp hc.2.2.2.2.2.2.2
    have hnone : readDigits 10 (c :: cs) none = readDigits 10 (c :: cs) (some 0) := by
      simp [readDigits, hd]
    have h0 := hval 0
    simp only [zero_mul, zero_add] at h0
    have hdrop : List.dropWhile isJSWhiteSpace (c :: cs) = c :: cs := by
      simp [List.dropWhile_cons, hc.1]
    have hsign := readSign_of_digit c cs hc.2.1 hc.2.2.1
    have hradix := readRadix_of_digits (c :: cs) hxs
    unfold parseInt
    simp only [hlist, hdrop]
    rw [hsign]
    simp only []
    rw [hradix]
    simp only [hnone, h0, hround]
    simp

/-! ### `split` on the wire format -/

/-- Characters other than the first character of the separator are taken into
the current piece. -/
theorem splitGo_pass (c0 : Char) (tail pre rest : List Char) (hpre : ∀ c ∈ pre, c ≠ c0) :
    ∀ acc, splitGo (c0 :: tail) (pre ++ rest) 0 acc
      = splitGo (c0 :: tail) rest 0 (pre.reverse ++ acc) := by
  induction pre with
  | nil => intro acc; simp
  | cons c cs ih =>
    intro acc
    have hc : (c0 == c) = false := by
      have := hpre c (List.mem_cons_self _ _)
      simpa using fun h => this h.symm
    simp only [List.cons_append, splitGo, startsWith, hc, Bool.false_and, Bool.false_eq_true,
      if_false]
    show splitGo (c0 :: tail) (cs ++ rest) 0 (c :: acc) = _
    rw [ih (fun x hx => hpre x (List.mem_cons_of_mem _ hx))]
    simp

theorem splitGo_end (c0 : Char) (tail pre : List Char) (hpre : ∀ c ∈ pre, c ≠ c0)
    (acc : List Char) : splitGo (c0 :: tail) pre 0 acc = [acc.reverse ++ pre] := by
  have := splitGo_pass c0 tail pre [] hpre acc
  simp only [List.append_nil] at this
  rw [this]
  simp [splitGo]

theorem splitGo_newline (rest acc : List Char) :
    splitGo ['\n'] ('\n' :: rest) 0 acc = acc.reverse :: splitGo ['\n'] rest 0 [] := by
  simp [splitGo, startsWith]

theorem splitGo_colon (rest acc : List Char) :
    splitGo [':', ' '] (':' :: ' ' :: rest) 0 acc
      = acc.reverse :: splitGo [':', ' '] rest 0 [] := by
  simp [splitGo, startsWith]

/-- A line `<key>: <value>` whose key and value hold no colon splits into the
key and the value. -/
theorem jsSplit_key_value (key value : List Char) (hk : ∀ c ∈ key, c ≠ ':')
    (hv : ∀ c ∈ value, c ≠ ':') :
    (jsSplit (String.mk (key ++ ':' :: ' ' :: value)) ": ")[1]? = some (String.mk value) := by
  have h : splitGo [':', ' '] (key ++ ':' :: ' ' :: value) 0 [] = [key, value] := by
    rw [splitGo_pass ':' [' '] key _ hk, splitGo_colon, splitGo_end ':' [' '] value hv]
    simp
  show ((splitGo [':', ' '] (key ++ ':' :: ' ' :: value) 0 []).map String.mk)[1]? = _
  rw [h]
  rfl

/-- The parser reads the wire format of the specification back: for an id
without colon and line break, a natural total below `2^53` and any display
name, the message `User ID: <id>`, `Total Time: <total>`, `Name: <name>` parses
to the id and the total. -/
theorem parseMessage_recordText (messageId adminId name : String) (totalTime : Nat)
    (hid : ∀ c ∈ adminId.toList, c ≠ ':' ∧ c ≠ '\n') (htotal : totalTime < 2 ^ 53) :
    parseMessage ⟨messageId, recordText adminId totalTime name⟩
      = some (adminId, JSNum.num (totalTime : Int)) := by
  obtain ⟨pre, hpre, _, hdig, _⟩ :=
    toDigitsCore_readDigits (totalTime + 1) totalTime [] (Nat.lt_succ_self totalTime)
  have hdigits : (toString totalTime).toList = pre := by
    show Nat.toDigitsCore 10 (totalTime + 1) totalTime [] = pre
    simpa using hpre
  have hnum : toString totalTime = String.mk pre := by
    rw [← hdigits]
    rfl
  have hlist : (recordText adminId totalTime name).toList
      = ("User ID".toList ++ ':' :: ' ' :: adminId.toList)
        ++ '\n' :: (("Total Time".toList ++ ':' :: ' ' :: pre)
          ++ '\n' :: ("Name: " ++ name).toList) := by
    unfold recordText
    simp only [String.toList, String.data_append, hnum]
    simp
  have hline0 : ∀ c ∈ "User ID".toList ++ ':' :: ' ' :: adminId.toList, c ≠ '\n' := by
    intro c hc
    simp only [List.mem_append, List.mem_cons] at hc
    rcases hc with hc | hc | hc | hc
    · revert c; decide
    · rw [hc]; decide
    · rw [hc]; decide
    · exact (hid c hc).2
  have hline1 : ∀ c ∈ "Total Time".toList ++ ':' :: ' ' :: pre, c ≠ '\n' := by
    intro c hc
    simp only [List.mem_append, List.mem_cons] at hc
    rcases hc with hc | hc | hc | hc
    · revert c; decide
    · rw [hc]; decide
    · rw [hc]; decide
    · exact (decimalDigits_facts c (hdig c hc)).2.2.2.2.2.2.1
  obtain ⟨l2, more, hl2⟩ : ∃ l2 more,
      splitGo ['\n'] ("Name: " ++ name).toList 0 [] = l2 :: more := by
    cases h : splitGo ['\n'] ("Name: " ++ name).toList 0 [] with
    | nil => exact absurd h (splitGo_ne_nil _ _ _ _)
    | cons a b => exact ⟨a, b, rfl⟩
  have hsplit : jsSplit (recordText adminId totalTime name) "\n"
      = String.mk ("User ID".toList ++ ':' :: ' ' :: adminId.toList)
        :: String.mk ("Total Time".toList ++ ':' :: ' ' :: pre)
        :: (l2 :: more).map String.mk := by
    show (splitGo ['\n'] (recordText adminId totalTime name).toList 0 []).map String.mk = _
    rw [hlist, splitGo_pass '\n' [] _ _ hline0, splitGo_newline,
      splitGo_pass '\n' [] _ _ hline1, splitGo_newline, hl2]
    simp
  have hkey := jsSplit_key_value "User ID".toList adminId.toList (by decide)
    (fun c hc => (hid c hc).1)
  have hval := jsSplit_key_value "Total Time".toList pre (by decide)
    (fun c hc => (decimalDigits_facts c (hdig c hc)).2.2.2.2.2.1)
  simp only [parseMessage, hsplit, List.headD_cons, hkey]
  simp only [List.getElem?_cons_succ, List.getElem?_cons_zero, hval, ← hnum,
    parseInt_toString totalTime htotal]
  rfl

/-- A colon that is not followed by a space is an ordinary character. -/
theorem splitGo_lone_colon (c : Char) (rest acc : List Char) (hc : c ≠ ' ') :
    splitGo [':', ' '] (':' :: c :: rest) 0 acc
      = splitGo [':', ' '] (c :: rest) 0 (':' :: acc) := by
  have h : (' ' == c) = false := by simpa using fun h => hc h.symm
  simp [splitGo, startsWith, h]

/-- What the parser reads from the content that the upsert writes, for an id
without colon and line break: the key `undefined` and the total `NaN`. -/
theorem parseMessage_messageContent (messageId adminId nickname : String) (totalTime : Int)
    (hid : ∀ c ∈ adminId.toList, c ≠ ':' ∧ c ≠ '\n') :
    parseMessage ⟨messageId, messageContent adminId totalTime nickname⟩
      = some ("undefined", JSNum.nan) := by
  obtain ⟨tailText, hlist⟩ : ∃ tailText : String,
      (messageContent adminId totalTime nickname).toList
        = '\n' :: (("        **User ID".toList ++ ':' :: '*' :: ("* ".toList ++ adminId.toList))
          ++ '\n' :: tailText.toList) := by
    refine ⟨"        **Total Time:** " ++ formatTime totalTime ++ "\n        **Name:** "
      ++ nickname ++ "\n      ", ?_⟩
    unfold messageContent
    simp only [String.toList, String.data_append]
    simp
  have hline1 : ∀ c ∈ "        **User ID".toList ++ ':' :: '*' :: ("* ".toList ++ adminId.toList),
      c ≠ '\n' := by
    intro c hc
    simp only [List.mem_append, List.mem_cons] at hc
    rcases hc with hc | hc | hc | hc | hc
    · revert c; decide
    · rw [hc]; decide
    · rw [hc]; decide
    · revert c; decide
    · exact (hid c hc).2
  obtain ⟨l2, more, hl2⟩ : ∃ l2 more, splitGo ['\n'] tailText.toList 0 [] = l2 :: more := by
    cases h : splitGo ['\n'] tailText.toList 0 [] with
    | nil => exact absurd h (splitGo_ne_nil _ _ _ _)
    | cons a b => exact ⟨a, b, rfl⟩
  have hsplit : jsSplit (messageContent adminId totalTime nickname) "\n"
      = "" :: String.mk ("        **User ID".toList ++ ':' :: '*' :: ("* ".toList ++ adminId.toList))
        :: (l2 :: more).map String.mk := by
    show (splitGo ['\n'] (messageContent adminId totalTime nickname).toList 0 []).map String.mk = _
    rw [hlist, splitGo_newline, splitGo_pass '\n' [] _ _ hline1, splitGo_newline, hl2]
    simp
  have hrest : ∀ c ∈ '*' :: ("* ".toList ++ adminId.toList), c ≠ ':' := by
    intro c hc
    simp only [List.mem_cons, List.mem_append] at hc
    rcases hc with hc | hc | hc
    · rw [hc]; decide
    · revert c; decide
    · exact (hid c hc).1
  have hvalue : (jsSplit
      (String.mk ("        **User ID".toList ++ ':' :: '*' :: ("* ".toList ++ adminId.toList)))
      ": ")[1]? = none := by
    show ((splitGo [':', ' ']
      ("        **User ID".toList ++ ':' :: '*' :: ("* ".toList ++ adminId.toList)) 0 []).map
        String.mk)[1]? = none
    rw [splitGo_pass ':' [' '] _ _ (by decide), splitGo_lone_colon _ _ _ (by decide),
      splitGo_end ':' [' '] _ hrest]
    rfl
  have hkey : keyOf ((jsSplit "" ": ")[1]?) = "undefined" := by decide
  simp only [parseMessage, hsplit, List.headD_cons, hkey]
  simp only [List.getElem?_cons_succ, List.getElem?_cons_zero, hvalue]
  rfl

/-- The written record never parses back: for no admin id, total and display
name does the parser return the id and the total that the upsert wrote. -/
theorem parseMessage_messageContent_ne (messageId adminId nickname : String) (totalTime : Int) :
    parseMessage ⟨messageId, messageContent adminId totalTime nickname⟩
      ≠ some (adminId, JSNum.num totalTime) := by
  intro h
  have hkey := parseMessage_messageContent_key messageId adminId nickname totalTime
  rw [h] at hkey
  simp only [Option.map_some', Option.some.injEq] at hkey
  have hid : ∀ c ∈ adminId.toList, c ≠ ':' ∧ c ≠ '\n' := by
    rw [hkey]
    decide
  rw [parseMessage_messageContent messageId adminId nickname totalTime hid] at h
  simp at h

/-- C2, failing on the code: for no admin id, total and display name does the
startup parser read back the id and the total from the content that the upsert
writes.  At a concrete input: `exampleAdmin` closes a session of `7200000` ms
on the empty tracker; the content sent to the channel is the bold, formatted
text of the template, and startup reconciliation over that message seeds the
key `undefined` with total `NaN` and nothing for `exampleAdmin`. -/
theorem C2_written_record_does_not_parse_back (messageId adminId nickname : String)
    (totalTime : Int) :
    parseMessage ⟨messageId, messageContent adminId totalTime nickname⟩
      ≠ some (adminId, JSNum.num totalTime)
    ∧ (voiceStateUpdate exampleRole (exampleLeave 1700007200000)
        (voiceStateUpdate exampleRole (exampleJoin 1700000000000) Tracker.empty).1).2
      = [Write.send (messageContent exampleAdmin 7200000 "bob")]
    ∧ messageContent exampleAdmin 7200000 "bob"
      = "\n        **User ID:** 123456789012345678\n        **Total Time:** 2h 0m\n        **Name:** bob\n      "
    ∧ parseMessage ⟨"m1", messageContent exampleAdmin 7200000 "bob"⟩
      = some ("undefined", JSNum.nan)
    ∧ (startup [⟨"m1", messageContent exampleAdmin 7200000 "bob"⟩]).adminTimingData
      = [("undefined", ⟨JSNum.nan, [], none⟩)]
    ∧ lookup exampleAdmin
        (startup [⟨"m1", messageContent exampleAdmin 7200000 "bob"⟩]).adminTimingData = none :=
  ⟨parseMessage_messageContent_ne messageId adminId nickname totalTime, by decide⟩

/-! ### Startup reconciliation as a whole -/

/-- C6 counterexample: reconciliation neither skips nor isolates a malformed
message.  A message of one line between two well-formed ones ends the loop with
an exception: the well-formed message after it is not seeded.  A message of two
lines without the `key: value` shape seeds a record under the key `undefined`
with total `NaN`.  Of two further well-formed messages, the total
`9007199254740993` is seeded as the double `9007199254740992`, and the id
`__proto__` is seeded as no record at all. -/
theorem C6_counterexample :
    forEachMessage
        [exampleMessage, ⟨"m2", "hello"⟩,
          exampleMessage3] Tracker.empty
      = ⟨⟨[(exampleAdmin, ⟨JSNum.num 7200000, [], none⟩)], [(exampleAdmin, "m1")]⟩, false⟩
    ∧ parseMessage exampleMessage3
      = some (exampleOther, JSNum.num 60000)
    ∧ forEachMessage [⟨"m4", "hello\nworld"⟩] Tracker.empty
      = ⟨⟨[("undefined", ⟨JSNum.nan, [], none⟩)], [("undefined", "m4")]⟩, true⟩
    ∧ forEachMessage
        [⟨"m5", "User ID: 123456789012345678\nTotal Time: 9007199254740993\nName: bob"⟩]
        Tracker.empty
      = ⟨⟨[(exampleAdmin, ⟨JSNum.num 9007199254740992, [], none⟩)], [(exampleAdmin, "m5")]⟩,
          true⟩
    ∧ forEachMessage [⟨"m6", "User ID: __proto__\nTotal Time: 7200000\nName: bob"⟩]
        Tracker.empty
      = ⟨Tracker.empty, true⟩ := by
  decide

/-- C6 (amended): startup reconciliation reads the channel messages in order
up to the first one whose content has fewer than two lines, and that message
ends it with an exception.  Exactly the messages before that one are seeded,
none after it; reconciliation completes exactly when every message has at
least two lines, and a message fails to parse exactly when it has fewer than
two lines.  A well-formed message (`User ID: <id>`, `Total Time: <total>`,
`Name: <name>`, the id without colon and line break and other than
`__proto__`, the total a natural number below `2^53`) seeds the record
`{totalTime: total, sessions: []}` under its id and stores its message id. -/
theorem C6_reconciliation_stops_at_short_message (messages : List Message) (s : Tracker)
    (message : Message) (messageId adminId name : String) (totalTime : Nat) :
    forEachMessage messages s =
      ⟨(messages.takeWhile hasTwoLines).foldl seedFrom s, messages.all hasTwoLines⟩
    ∧ (parseMessage message).isSome = hasTwoLines message
    ∧ ((∀ c ∈ adminId.toList, c ≠ ':' ∧ c ≠ '\n') → adminId ≠ "__proto__" →
        totalTime < 2 ^ 53 →
        seedFrom s ⟨messageId, recordText adminId totalTime name⟩
          = ⟨assign adminId ⟨JSNum.num (totalTime : Int), [], none⟩ s.adminTimingData,
              assign adminId messageId s.adminMessageIds⟩) := by
  refine ⟨forEachMessage_takeWhile messages s, parseMessage_isSome message, ?_⟩
  intro hid hproto htotal
  simp only [seedFrom, parseMessage_recordText messageId adminId name totalTime hid htotal,
    seedRecord, hproto, if_false]

/-- A witness for C6: a well-formed message, a message of one line, and a
second well-formed message, from the empty tracker. -/
theorem C6_reconciliation_stops_at_short_message_witness :
    forEachMessage
        [⟨"m1", recordText exampleAdmin 7200000 "bob"⟩, ⟨"m2", "hello"⟩,
          ⟨"m3", recordText exampleOther 60000 "al"⟩] Tracker.empty
      = ⟨(List.takeWhile hasTwoLines
            [⟨"m1", recordText exampleAdmin 7200000 "bob"⟩, ⟨"m2", "hello"⟩,
              ⟨"m3", recordText exampleOther 60000 "al"⟩]).foldl seedFrom Tracker.empty,
          List.all [⟨"m1", recordText exampleAdmin 7200000 "bob"⟩, ⟨"m2", "hello"⟩,
              ⟨"m3", recordText exampleOther 60000 "al"⟩] hasTwoLines⟩
    ∧ seedFrom Tracker.empty ⟨"m1", recordText exampleAdmin 7200000 "bob"⟩
      = ⟨assign exampleAdmin ⟨JSNum.num 7200000, [], none⟩ Tracker.empty.adminTimingData,
          assign exampleAdmin "m1" Tracker.empty.adminMessageIds⟩ :=
  ⟨(C6_reconciliation_stops_at_short_message
      [⟨"m1", recordText exampleAdmin 7200000 "bob"⟩, ⟨"m2", "hello"⟩,
        ⟨"m3", recordText exampleOther 60000 "al"⟩] Tracker.empty ⟨"m2", "hello"⟩ "m1"
      exampleAdmin "bob" 7200000).1,
    (C6_reconciliation_stops_at_short_message [] Tracker.empty ⟨"m2", "hello"⟩ "m1"
      exampleAdmin "bob" 7200000).2.2 (by decide) (by decide) (by norm_num)⟩

end A7B
